import Mathlib

/-!
# enhanced-bitcoin-finder.go : a shallow embedding and its verified properties

The Go program loads a set of funded addresses, starts a pool of identical
search workers, and lets every worker generate a random key, derive an address,
look it up, count it and record a hit.  This file embeds

* `loadFundedAddresses` (the membership set and the loaded count),
* the start-up path of `main` (worker count handling),
* `privateKeyToAddress` / `publicKeyToAddress` / `sha256Checksum`
  over abstract hash and curve primitives,
* `addressSearcher` as a step machine: one step per atomic action of a worker,
  scheduled in an arbitrary order.

Conventions.  A Go `string` is a list of characters, a `[]byte` is a list of
`Fin 256`, `int64` and `int` are integers wrapped into `[-2^63, 2^63)` after every
arithmetic operation, a `map[string]bool` is an association list with unique
keys.

The step machine.  A worker is at one of twelve places of the loop body; a step
is the action between two places.  The two `statsMutex` sections are one step
each, so are the lookup under the read lock, `mutex.Lock()`, `os.OpenFile`,
`file.WriteString` (which appends its argument, or a prefix of it when the
write fails) and `file.Close(); mutex.Unlock()`.  A worker scheduled at `mutex.Lock()` while the
mutex is held stays where it is.  The reads of `foundCount` outside the lock
(for the two message texts) see the value at that step.  What comes from outside
(the random bytes, the success of `os.OpenFile`, the formatted time, the outcome
of the write) is part of the scheduling event.  `reportStatistics` only reads and logs and is left out.
-/

namespace BitcoinFinder

/-! ## Strings, bytes, machine integers -/

/-- A Go string, seen as its sequence of runes. -/
abbrev GoString := List Char

/-- A Go byte. -/
abbrev Byte := Fin 256

/-- A Go byte slice. -/
abbrev Bytes := List Byte

/-- Two's complement wrap-around of a 64-bit signed integer (`int64`, and `int`
on 64-bit targets). -/
def wrapInt64 (x : Int) : Int := (x + 2 ^ 63) % 2 ^ 64 - 2 ^ 63

/-- `unicode.IsSpace`: the Latin-1 white space characters and the other code
points with the White_Space property. -/
def isSpace (r : Char) : Bool :=
  let n := r.toNat
  if n ≤ 0xFF then
    n = 0x09 || n = 0x0A || n = 0x0B || n = 0x0C || n = 0x0D || n = 0x20 ||
      n = 0x85 || n = 0xA0
  else
    n = 0x1680 || (0x2000 ≤ n && n ≤ 0x200A) || n = 0x2028 || n = 0x2029 ||
      n = 0x202F || n = 0x205F || n = 0x3000

/-- `strings.TrimSpace`: the string without its leading and trailing white
space. -/
def TrimSpace (s : GoString) : GoString :=
  ((s.dropWhile isSpace).reverse.dropWhile isSpace).reverse

/-! ## `map[string]bool` -/

/-- A Go `map[string]bool`: an association list in which every key occurs at
most once. -/
abbrev GoMap := List (GoString × Bool)

/-- The map expression `m[k]`: the stored value, or `false` (the zero value)
when the key is absent. -/
def mapIndex : GoMap → GoString → Bool
  | [], _ => false
  | (k1, v) :: rest, k => if k1 = k then v else mapIndex rest k

/-- The assignment `m[k] = v`: overwrites the entry of `k` or adds one. -/
def mapAssign : GoMap → GoString → Bool → GoMap
  | [], k, v => [(k, v)]
  | (k1, v1) :: rest, k, v =>
    if k1 = k then (k, v) :: rest else (k1, v1) :: mapAssign rest k v

/-- The builtin `len(m)`: the number of entries. -/
def mapLen (m : GoMap) : Int := m.length

/-! ## `loadFundedAddresses` -/

/-- What `bufio.Scanner` delivers for the opened file: the tokens returned by
the successive `scanner.Text()` calls, and the value of `scanner.Err()` once
`scanner.Scan()` has returned false. -/
structure ScanSource where
  lines : List GoString
  err : Option GoString

/-- The variables the scanning loop updates: the global map and the local
`count`. -/
structure LoadState where
  fundedAddresses : GoMap
  count : Int

/-- The loop `for scanner.Scan() { ... }` of `loadFundedAddresses`. -/
def loadLoop : List GoString → LoadState → LoadState
  | [], st => st
  | line :: rest, st =>
    let address := TrimSpace line
    if address.length > 0 then
      loadLoop rest
        { fundedAddresses := mapAssign st.fundedAddresses address true
          count := wrapInt64 (st.count + 1) }
    else
      loadLoop rest st

/-- The observable result of `loadFundedAddresses`: the global map after the
call, the count written by the final `log.Printf` (if that line is reached),
and the returned error. -/
structure LoadOutcome where
  fundedAddresses : GoMap
  logged : Option Int
  err : Option GoString

/-- `loadFundedAddresses`.  The argument is the outcome of `os.Open`: an error,
or the scanner's view of the file.  The global map starts empty
(`make(map[string]bool)`). -/
def loadFundedAddresses (file : Except GoString ScanSource) : LoadOutcome :=
  match file with
  | .error e =>
    { fundedAddresses := []
      logged := none
      err := some ("failed to open Bitcoin_addresses_LATEST.txt: ".toList ++ e) }
  | .ok src =>
    let st := loadLoop src.lines { fundedAddresses := [], count := 0 }
    match src.err with
    | some e =>
      { fundedAddresses := st.fundedAddresses
        logged := none
        err := some ("error reading file: ".toList ++ e) }
    | none =>
      { fundedAddresses := st.fundedAddresses
        logged := some st.count
        err := none }

/-- A line that consists of white space only (the empty line included). -/
def isBlank (line : GoString) : Bool := line.all isSpace

/-- The identifiers of a source in order of appearance: the trimmed text of
every line whose trimmed text is not empty. -/
def identifiers (lines : List GoString) : List GoString :=
  (lines.map TrimSpace).filter (fun a => decide (a ≠ []))

/-! ## `main`: the start-up path -/

/-- The constant `MaxWorkers`. -/
def MaxWorkers : Int := 1000

/-- The constant `ProgressNotification`. -/
def ProgressNotification : Int := 1000000

/-- How `main` ends. -/
inductive Ending
  /-- The usage text followed by `os.Exit(1)`. -/
  | usageExit
  /-- A `log.Fatalf` call with the given message. -/
  | fatal (msg : GoString)
  /-- The function blocks in `wg.Wait()`: the workers never call `wg.Done()`. -/
  | waiting
  /-- The function returns from `wg.Wait()` at once and `main` returns
  normally (exit status 0). -/
  | returned
  deriving DecidableEq, Repr

/-- What `main` has done when it ends or blocks: the number of
`go addressSearcher(...)` statements executed, the thread count announced in the
start-up message (if it was sent), and the way it ends. -/
structure MainResult where
  launched : Nat
  announced : Option Int
  ending : Ending
  deriving DecidableEq, Repr

/-- The loop `for i := 0; i < numThreads; i++ { wg.Add(1); go addressSearcher(i, ...) }`:
the ids of the workers it starts.  The fuel bounds the number of turns. -/
def launchLoop (numThreads : Int) : Nat → Int → List Int
  | 0, _ => []
  | fuel + 1, i => if i < numThreads then i :: launchLoop numThreads fuel (i + 1) else []

/-- The function `main`.  `argc` is `len(os.Args)`, `atoi` the result of
`strconv.Atoi(os.Args[1])`, `file` the outcome of opening the address file. -/
def main (argc : Nat) (atoi : Except GoString Int) (file : Except GoString ScanSource) :
    MainResult :=
  if argc ≠ 3 then
    { launched := 0, announced := none, ending := .usageExit }
  else
    match atoi with
    | .error e =>
      { launched := 0, announced := none
        ending := .fatal ("Invalid number of threads: ".toList ++ e) }
    | .ok n =>
      let numThreads := if n > MaxWorkers then MaxWorkers else n
      match (loadFundedAddresses file).err with
      | some e =>
        { launched := 0, announced := none
          ending := .fatal ("Failed to load funded addresses: ".toList ++ e) }
      | none =>
        let ids := launchLoop numThreads numThreads.toNat 0
        { launched := ids.length
          announced := some numThreads
          ending := if ids.length = 0 then .returned else .waiting }

/-! ## Address derivation -/

/-- The library functions the derivation calls: `elliptic.P256().ScalarBaseMult`
(the affine coordinates of the product), `sha256`, `ripemd160` and
`base58.Encode`. -/
structure Primitives where
  ScalarBaseMult : Bytes → Nat × Nat
  sha256 : Bytes → Bytes
  ripemd160 : Bytes → Bytes
  base58Encode : Bytes → GoString

/-- Base-256 digits of `n`, most significant first, put in front of `acc`
(at most `fuel` of them). -/
def bytesLoop : Nat → Nat → Bytes → Bytes
  | 0, _, acc => acc
  | fuel + 1, n, acc =>
    if n = 0 then acc else bytesLoop fuel (n / 256) ((Fin.ofNat (n % 256) : Fin 256) :: acc)

/-- The method `(*big.Int).Bytes` on a non-negative integer: its big-endian
bytes without leading zeros (no byte at all for zero). -/
def bigIntBytes (n : Nat) : Bytes := bytesLoop n n []

/-- The slice `pubKeyBytes` of `publicKeyToAddress`:
`append(publicKey.X.Bytes(), publicKey.Y.Bytes()...)`. -/
def pubKeyBytes (X Y : Nat) : Bytes := bigIntBytes X ++ bigIntBytes Y

/-- The function `sha256Checksum`. -/
def sha256Checksum (P : Primitives) (input : Bytes) : Bytes :=
  let result := P.sha256 input
  let finalResult := P.sha256 result
  finalResult.take 4

/-- The function `publicKeyToAddress`; the returned error is always nil. -/
def publicKeyToAddress (P : Primitives) (X Y : Nat) : Except GoString GoString :=
  let sha256Result := P.sha256 (pubKeyBytes X Y)
  let ripemd160Result := P.ripemd160 sha256Result
  let networkVersion : Byte := 0x00
  let addressBytes := [networkVersion] ++ ripemd160Result
  let checksum := sha256Checksum P addressBytes
  let fullAddress := addressBytes ++ checksum
  .ok (P.base58Encode fullAddress)

/-- The function `privateKeyToAddress`. -/
def privateKeyToAddress (P : Primitives) (privateKeyBytes : Bytes) :
    Except GoString GoString :=
  let xy := P.ScalarBaseMult privateKeyBytes
  publicKeyToAddress P xy.1 xy.2

/-- The function `generateRandomPrivateKey`.  The argument is the outcome of
`rand.Read` on the fresh 32-byte buffer: `none` for an error, otherwise the
random bytes, which overwrite the buffer from its start. -/
def generateRandomPrivateKey (rand : Option Bytes) : Except GoString Bytes :=
  match rand with
  | none => .error "rand.Read failed".toList
  | some bs => .ok ((bs ++ List.replicate 32 (0 : Byte)).take 32)

/-! ## `encoding/hex` and formatting -/

/-- The table `hextable` of `encoding/hex`. -/
def hextable : GoString := "0123456789abcdef".toList

/-- The function `hex.EncodeToString`: two lower-case digits per byte. -/
def EncodeToString (src : Bytes) : GoString :=
  src.flatMap (fun v => [hextable.getD (v.val / 16) '0', hextable.getD (v.val % 16) '0'])

/-- The function `fromHexChar` of `encoding/hex`. -/
def fromHexChar (c : Char) : Option Nat :=
  let n := c.toNat
  if '0'.toNat ≤ n ∧ n ≤ '9'.toNat then some (n - '0'.toNat)
  else if 'a'.toNat ≤ n ∧ n ≤ 'f'.toNat then some (n - 'a'.toNat + 10)
  else if 'A'.toNat ≤ n ∧ n ≤ 'F'.toNat then some (n - 'A'.toNat + 10)
  else none

/-- The function `hex.DecodeString`: `none` stands for its errors (a character
that is no hex digit, an odd length). -/
def DecodeString : GoString → Option Bytes
  | [] => some []
  | [_] => none
  | a :: b :: rest =>
    match fromHexChar a, fromHexChar b, DecodeString rest with
    | some hi, some lo, some tail => some ((Fin.ofNat (hi * 16 + lo) : Fin 256) :: tail)
    | _, _, _ => none

/-- The verb `%d` applied to an integer. -/
def formatInt (n : Int) : GoString :=
  if n < 0 then '-' :: (Nat.repr n.natAbs).toList else (Nat.repr n.natAbs).toList

/-- The line written to the output file:
`fmt.Sprintf("[%s] FOUND! PrivateKey: %s Address: %s\n", timestamp, privateKeyHex, address)`. -/
def matchLine (timestamp privateKeyHex address : GoString) : GoString :=
  "[".toList ++ timestamp ++ "] FOUND! PrivateKey: ".toList ++ privateKeyHex ++
    " Address: ".toList ++ address ++ "\n".toList

/-! ## `addressSearcher` as a step machine -/

/-- The text handed to `sendTelegramMessage`, by its kind and the integers and
strings formatted into it (the rate and the elapsed time of a progress message,
which come from the wall clock, are left out). -/
inductive Message
  /-- "Progress Update": `currentChecked` and the value of `foundCount` read. -/
  | progress (currentChecked foundCount : Int)
  /-- "FOUND BITCOIN ADDRESS!": the hex key, the address and the value of
  `foundCount` read ("Total Found"). -/
  | found (privateKeyHex address : GoString) (totalFound : Int)
  deriving DecidableEq, Repr

/-- The actions of a worker that are visible outside the process. -/
inductive Effect
  /-- A call of `sendTelegramMessage`. -/
  | telegram (m : Message)
  /-- A call of `os.OpenFile` on the output file, with its success. -/
  | openFile (ok : Bool)
  /-- A call of `file.WriteString` with the string `s`, of which `stored`
  reached the file. -/
  | writeString (s stored : GoString)
  deriving DecidableEq, Repr

/-- The places of the loop body of `addressSearcher` at which a worker can be
between two of its atomic actions. -/
inductive PC
  /-- Top of the loop, before `generateRandomPrivateKey`. -/
  | generate
  /-- Before `privateKeyToAddress`. -/
  | derive
  /-- Before the read-locked lookup `fundedAddresses[address]`. -/
  | check
  /-- Before the `statsMutex` section that increments `checkedCount`. -/
  | account
  /-- Before the test `currentChecked%ProgressNotification == 0`. -/
  | progress
  /-- Before `if isFunded` and the `statsMutex` section that increments `foundCount`. -/
  | hit
  /-- Before the hex encoding and the match alert. -/
  | alert
  /-- Before `mutex.Lock()`. -/
  | lock
  /-- Holding the mutex, before `os.OpenFile`. -/
  | openFile
  /-- Holding the mutex, before the time stamp and `file.WriteString`. -/
  | write
  /-- Holding the mutex, before `file.Close()` and `mutex.Unlock()`. -/
  | unlock
  /-- Before the final `time.Sleep`. -/
  | throttle
  deriving DecidableEq, Repr

/-- The local variables of one worker. -/
structure Worker where
  pc : PC
  privateKey : Bytes
  address : GoString
  isFunded : Bool
  currentChecked : Int
  privateKeyHex : GoString
  deriving DecidableEq, Repr

/-- The state all workers share: the two global counters, the recorder mutex
created in `main` (true when locked), the visible actions so far (oldest first)
and the contents of the output file. -/
structure Shared where
  checkedCount : Int
  foundCount : Int
  mutex : Bool
  trace : List Effect
  file : GoString
  deriving DecidableEq, Repr

/-- What is fixed once the search starts: the library functions, the loaded
map and the progress interval (`ProgressNotification` in the program). -/
structure Config where
  prims : Primitives
  fundedAddresses : GoMap
  interval : Int

/-- What one scheduling step brings from outside: the worker that moves, and
the answers of the environment it may consume: the outcome of `rand.Read`,
whether `os.OpenFile` succeeds, the formatted current time, and the outcome of
`file.WriteString` (`none` when the whole string is written, `some n` when the
write fails after `n` bytes). -/
structure Event where
  worker : Nat
  rand : Option Bytes
  openOk : Bool
  now : GoString
  wrote : Option Nat

/-- The part of a string that `file.WriteString` puts into the file: all of
it, or its first `n` bytes when the write fails after `n` bytes.  The call
returns the count and the error; `addressSearcher` discards both. -/
def storedPart (wrote : Option Nat) (s : GoString) : GoString :=
  match wrote with
  | none => s
  | some n => s.take n

/-- One atomic action of a worker. -/
def addressSearcherStep (cfg : Config) (ev : Event) (sh : Shared) (w : Worker) : Shared × Worker :=
  match w.pc with
  | .generate =>
    match generateRandomPrivateKey ev.rand with
    | .error _ => (sh, w)
    | .ok privateKey => (sh, { w with privateKey := privateKey, pc := .derive })
  | .derive =>
    match privateKeyToAddress cfg.prims w.privateKey with
    | .error _ => (sh, { w with pc := .generate })
    | .ok address => (sh, { w with address := address, pc := .check })
  | .check =>
    (sh, { w with isFunded := mapIndex cfg.fundedAddresses w.address, pc := .account })
  | .account =>
    let checkedCount := wrapInt64 (sh.checkedCount + 1)
    ({ sh with checkedCount := checkedCount },
      { w with currentChecked := checkedCount, pc := .progress })
  | .progress =>
    if w.currentChecked.tmod cfg.interval = 0 then
      ({ sh with trace := sh.trace ++
          [.telegram (.progress w.currentChecked sh.foundCount)] },
        { w with pc := .hit })
    else
      (sh, { w with pc := .hit })
  | .hit =>
    if w.isFunded then
      ({ sh with foundCount := wrapInt64 (sh.foundCount + 1) }, { w with pc := .alert })
    else
      (sh, { w with pc := .throttle })
  | .alert =>
    let privateKeyHex := EncodeToString w.privateKey
    ({ sh with trace := sh.trace ++
        [.telegram (.found privateKeyHex w.address sh.foundCount)] },
      { w with privateKeyHex := privateKeyHex, pc := .lock })
  | .lock =>
    if sh.mutex then (sh, w)
    else ({ sh with mutex := true }, { w with pc := .openFile })
  | .openFile =>
    if ev.openOk then
      ({ sh with trace := sh.trace ++ [.openFile true] }, { w with pc := .write })
    else
      ({ sh with mutex := false, trace := sh.trace ++ [.openFile false] },
        { w with pc := .generate })
  | .write =>
    let line := matchLine ev.now w.privateKeyHex w.address
    let stored := storedPart ev.wrote line
    ({ sh with file := sh.file ++ stored, trace := sh.trace ++ [.writeString line stored] },
      { w with pc := .unlock })
  | .unlock =>
    ({ sh with mutex := false }, { w with pc := .throttle })
  | .throttle =>
    (sh, { w with pc := .generate })

/-- The program state: the shared part and the workers by index. -/
structure State where
  shared : Shared
  workers : List Worker
  deriving DecidableEq, Repr

/-- One scheduling step: the worker named by the event performs its next
action (nothing happens if there is no such worker). -/
def step (cfg : Config) (s : State) (ev : Event) : State :=
  match s.workers[ev.worker]? with
  | none => s
  | some w =>
    let r := addressSearcherStep cfg ev s.shared w
    { shared := r.1, workers := s.workers.set ev.worker r.2 }

/-- A run: the steps of a schedule, one after the other. -/
def run (cfg : Config) (s : State) (evs : List Event) : State :=
  evs.foldl (step cfg) s

/-- A worker as its goroutine starts. -/
def newWorker : Worker :=
  { pc := .generate, privateKey := [], address := [], isFunded := false,
    currentChecked := 0, privateKeyHex := [] }

/-- The state in which `main` starts the workers: both counters zero, the
mutex free, nothing sent, the output file with whatever it contained before. -/
def initState (numThreads : Nat) (file0 : GoString) : State :=
  { shared := { checkedCount := 0, foundCount := 0, mutex := false, trace := [],
                file := file0 }
    workers := List.replicate numThreads newWorker }

/-- 1 if the step the event schedules is an increment of `checkedCount`,
else 0. -/
def accountStep (s : State) (ev : Event) : Nat :=
  match s.workers[ev.worker]? with
  | some w => if w.pc = .account then 1 else 0
  | none => 0

/-- The number of steps of a run that are increments of `checkedCount`
(the counted iterations). -/
def countedIterations (cfg : Config) : State → List Event → Nat
  | _, [] => 0
  | s, ev :: rest => accountStep s ev + countedIterations cfg (step cfg s ev) rest

/-- Steps of one worker until it is back at the top of the loop (at most `fuel`
of them), all with the same answers of the environment. -/
def finishIteration (cfg : Config) (ev : Event) : Nat → Shared × Worker → Shared × Worker
  | 0, x => x
  | fuel + 1, x =>
    if x.2.pc = .generate then x
    else finishIteration cfg ev fuel (addressSearcherStep cfg ev x.1 x.2)

/-- One iteration of the loop of `addressSearcher`, run without interruption:
the first action from the top of the loop, then the following ones until the
worker is at the top again. -/
def addressSearcherIteration (cfg : Config) (ev : Event) (sh : Shared) (w : Worker) : Shared × Worker :=
  finishIteration cfg ev 16 (addressSearcherStep cfg ev sh w)

/-- The number of progress messages among the visible actions. -/
def progressSent (trace : List Effect) : Nat :=
  trace.countP (fun e => match e with
    | .telegram (.progress _ _) => true
    | _ => false)

/-- The strings handed to `file.WriteString`, in order. -/
def written (trace : List Effect) : List GoString :=
  trace.filterMap (fun e => match e with
    | .writeString s _ => some s
    | _ => none)

/-- The parts of those strings that reached the file, in order. -/
def stored (trace : List Effect) : List GoString :=
  trace.filterMap (fun e => match e with
    | .writeString _ p => some p
    | _ => none)

/-- The `file.WriteString` calls, in order: the string of each and the part of
it that reached the file. -/
def writes (trace : List Effect) : List (GoString × GoString) :=
  trace.filterMap (fun e => match e with
    | .writeString s p => some (s, p)
    | _ => none)

/-- The number of `os.OpenFile` calls that succeeded. -/
def successfulOpens (trace : List Effect) : Nat :=
  trace.countP (fun e => match e with
    | .openFile true => true
    | _ => false)

/-- The match alerts among the visible actions, in order. -/
def alerts (trace : List Effect) : List Message :=
  trace.filterMap (fun e => match e with
    | .telegram (.found h a n) => some (.found h a n)
    | _ => none)

/-- The number of `os.OpenFile` calls among the visible actions. -/
def openAttempts (trace : List Effect) : Nat :=
  trace.countP (fun e => match e with
    | .openFile _ => true
    | _ => false)

/-- Toy library functions, for concrete runs. -/
def toyPrims : Primitives :=
  { ScalarBaseMult := fun k => (k.length, (k.map Fin.val).sum)
    sha256 := fun b => b.reverse ++ [7, 7, 7, 7]
    ripemd160 := fun b => b.take 3
    base58Encode := fun b => EncodeToString b }

/-- The address `privateKeyToAddress` returns for a key (its error is always
nil). -/
def derivedAddress (P : Primitives) (privateKey : Bytes) : GoString :=
  match privateKeyToAddress P privateKey with
  | .ok address => address
  | .error _ => []

/-- The progress message of an iteration whose increment produced
`currentChecked`, if it sends one; `foundCount` is the value it reads. -/
def progressEffect (cfg : Config) (currentChecked foundCount : Int) : List Effect :=
  if currentChecked.tmod cfg.interval = 0 then
    [.telegram (.progress currentChecked foundCount)]
  else []

/-- An iteration that takes the shared state from `before` to `after` registers
a match: it increments `foundCount`, sends one match alert and calls
`os.OpenFile` once for the append. -/
def registersMatch (before after : Shared) : Prop :=
  after.foundCount = wrapInt64 (before.foundCount + 1) ∧
    (alerts after.trace).length = (alerts before.trace).length + 1 ∧
    openAttempts after.trace = openAttempts before.trace + 1

/-- An iteration that takes the shared state from `before` to `after` shows no
sign of a match: `foundCount`, the alerts sent, the `os.OpenFile` calls and the
output file are as before. -/
def registersNothing (before after : Shared) : Prop :=
  after.foundCount = before.foundCount ∧ alerts after.trace = alerts before.trace ∧
    openAttempts after.trace = openAttempts before.trace ∧
    written after.trace = written before.trace ∧ after.file = before.file

/-! ## Quantities the invariants speak about -/

/-- 1 for a worker between `mutex.Lock()` and `mutex.Unlock()`, else 0. -/
def inSection (w : Worker) : Nat :=
  match w.pc with
  | .openFile | .write | .unlock => 1
  | _ => 0

/-- The number of workers between `mutex.Lock()` and `mutex.Unlock()`. -/
def sectionCount (ws : List Worker) : Nat := (ws.map inSection).sum

/-- 1 for a worker that has counted its iteration in `checkedCount` and is
about to count its match in `foundCount`, else 0. -/
def pendingHit (w : Worker) : Nat :=
  match w.pc with
  | .progress | .hit => if w.isFunded then 1 else 0
  | _ => 0

/-- The number of workers whose match is counted in `checkedCount` and not yet
in `foundCount`. -/
def pendingHits (ws : List Worker) : Nat := (ws.map pendingHit).sum

/-- 1 for a worker whose increment produced a multiple of the interval and
that has not reached its progress message yet, else 0. -/
def pendingProgress (cfg : Config) (w : Worker) : Nat :=
  match w.pc with
  | .progress => if w.currentChecked.tmod cfg.interval = 0 then 1 else 0
  | _ => 0

/-- The number of workers that are about to send a progress message. -/
def pendingProgressCount (cfg : Config) (ws : List Worker) : Nat :=
  (ws.map (pendingProgress cfg)).sum

/-- A string is the record of a match: the formatted line of some time stamp
and some key whose derived address is in the map. -/
def IsRecord (cfg : Config) (l : GoString) : Prop :=
  ∃ ts key, l = matchLine ts (EncodeToString key) (derivedAddress cfg.prims key) ∧
    mapIndex cfg.fundedAddresses (derivedAddress cfg.prims key) = true

/-- What the local variables of a worker satisfy at each place of the loop. -/
def WorkerOK (cfg : Config) (w : Worker) : Prop :=
  match w.pc with
  | .generate | .derive | .unlock | .throttle => True
  | .check => w.address = derivedAddress cfg.prims w.privateKey
  | .account | .progress | .hit =>
    w.address = derivedAddress cfg.prims w.privateKey ∧
      w.isFunded = mapIndex cfg.fundedAddresses w.address
  | .alert =>
    w.address = derivedAddress cfg.prims w.privateKey ∧
      mapIndex cfg.fundedAddresses w.address = true
  | .lock | .openFile | .write =>
    w.address = derivedAddress cfg.prims w.privateKey ∧
      mapIndex cfg.fundedAddresses w.address = true ∧
      w.privateKeyHex = EncodeToString w.privateKey

/-- The number of values among the first `n` that the increment of
`checkedCount` produces (from 0) that are multiples of the interval. -/
def multiplesSeen (interval : Int) : Nat → Nat
  | 0 => 0
  | n + 1 =>
    multiplesSeen interval n + if (wrapInt64 ((n : Int) + 1)).tmod interval = 0 then 1 else 0

/-- The invariant of the recording section, for a run that started with the
output file `file0`: the local variables of every worker are as `WorkerOK`
says, the mutex is locked exactly when one worker is in the section (and then
no second one is), the file is `file0` followed by the parts stored by the
`file.WriteString` calls in their order, every string handed to such a call is
the record of a match, and what a call stored is a prefix of its string. -/
def RecorderInv (cfg : Config) (file0 : GoString) (s : State) : Prop :=
  (∀ w ∈ s.workers, WorkerOK cfg w) ∧
    sectionCount s.workers = (if s.shared.mutex = true then 1 else 0) ∧
    s.shared.file = file0 ++ (stored s.shared.trace).flatten ∧
    (∀ l ∈ written s.shared.trace, IsRecord cfg l) ∧
    ∀ p ∈ writes s.shared.trace, p.2 <+: p.1

/-- The invariant of a search against an empty map, for a run that started
with the output file `file0`: no worker has seen a match or is past the test
`if isFunded`, `foundCount` is zero, and no alert or record has been produced. -/
def NoMatchInv (file0 : GoString) (s : State) : Prop :=
  (∀ w ∈ s.workers, w.isFunded = false ∧ inSection w = 0 ∧ w.pc ≠ .alert ∧ w.pc ≠ .lock) ∧
    s.shared.foundCount = 0 ∧ s.shared.file = file0 ∧
    written s.shared.trace = [] ∧ alerts s.shared.trace = [] ∧
    openAttempts s.shared.trace = 0

/-- 1 if the step the event schedules is the lookup of an address that is in
the map, else 0. -/
def memberStep (cfg : Config) (s : State) (ev : Event) : Nat :=
  match s.workers[ev.worker]? with
  | some w =>
    if w.pc = .check ∧ mapIndex cfg.fundedAddresses w.address = true then 1 else 0
  | none => 0

/-- The number of iterations of a run whose derived address was looked up and
found in the map. -/
def memberIterations (cfg : Config) : State → List Event → Nat
  | _, [] => 0
  | s, ev :: rest => memberStep cfg s ev + memberIterations cfg (step cfg s ev) rest

/-- 1 for a worker whose address was found in the map and that has not
incremented `foundCount` for it yet, else 0. -/
def awaitingHit (w : Worker) : Nat :=
  match w.pc with
  | .account | .progress | .hit => if w.isFunded then 1 else 0
  | _ => 0

/-- 1 for a worker whose address was found in the map and that has not sent
the match alert yet, else 0. -/
def awaitingAlert (w : Worker) : Nat :=
  match w.pc with
  | .account | .progress | .hit => if w.isFunded then 1 else 0
  | .alert => 1
  | _ => 0

/-- 1 for a worker whose address was found in the map and that has not called
`os.OpenFile` for it yet, else 0. -/
def awaitingOpen (w : Worker) : Nat :=
  match w.pc with
  | .account | .progress | .hit => if w.isFunded then 1 else 0
  | .alert | .lock | .openFile => 1
  | _ => 0

/-- 1 for a worker that has opened the file and not called `file.WriteString`
yet, else 0. -/
def atWrite (w : Worker) : Nat :=
  match w.pc with
  | .write => 1
  | _ => 0

/-- The number of steps a worker on its way to `os.OpenFile` needs to get
there once the mutex is free. -/
def stepsToOpen (w : Worker) : Nat :=
  match w.pc with
  | .account => 5
  | .progress => 4
  | .hit => 3
  | .alert => 2
  | .lock => 1
  | _ => 0

/-- The bookkeeping of the matches after `m` iterations whose address was
found in the map: each of them has led to a call of `os.OpenFile`, to a match
alert and to an increment of `foundCount`, or its worker is on the way there;
and each successful `os.OpenFile` has led to one `file.WriteString`, or its
worker is about to call it. -/
def MatchInv (s : State) (m : Nat) : Prop :=
  m = openAttempts s.shared.trace + (s.workers.map awaitingOpen).sum ∧
    m = (alerts s.shared.trace).length + (s.workers.map awaitingAlert).sum ∧
    s.shared.foundCount = wrapInt64 ((m : Int) - ((s.workers.map awaitingHit).sum : Nat)) ∧
    successfulOpens s.shared.trace =
      (writes s.shared.trace).length + (s.workers.map atWrite).sum

/-- A message is the alert of a match: the hex encoding of some key, the address
derived from it, which is in the map, and some count. -/
def IsAlert (cfg : Config) (m : Message) : Prop :=
  ∃ key n, m = .found (EncodeToString key) (derivedAddress cfg.prims key) n ∧
    mapIndex cfg.fundedAddresses (derivedAddress cfg.prims key) = true

/-- The invariant of the alerts: the local variables of every worker are as
`WorkerOK` says, and every match alert sent is the alert of a match. -/
def AlertInv (cfg : Config) (s : State) : Prop :=
  (∀ w ∈ s.workers, WorkerOK cfg w) ∧ ∀ m ∈ alerts s.shared.trace, IsAlert cfg m

/-! ## A concrete search, for evaluating the definitions -/

/-- A fixed secret: 32 zero bytes. -/
def toyKey : Bytes := List.replicate 32 0

/-- A membership source with the address of `toyKey` between two blank
lines. -/
def toySource : ScanSource :=
  { lines := [[], ' ' :: derivedAddress toyPrims toyKey ++ [' '], [' ', ' ']], err := none }

/-- The search over the toy library functions and the map loaded from
`toySource`, with the interval of the program. -/
def toyConfig : Config :=
  { prims := toyPrims
    fundedAddresses := (loadFundedAddresses (.ok toySource)).fundedAddresses
    interval := ProgressNotification }

/-- The same search against an empty map. -/
def emptyConfig : Config :=
  { prims := toyPrims, fundedAddresses := [], interval := ProgressNotification }

/-- Worker 0 moves; `rand.Read` delivers `toyKey`, `os.OpenFile` and
`file.WriteString` succeed. -/
def toyEvent : Event :=
  { worker := 0, rand := some toyKey, openOk := true, now := "2006-02-03 04:05:06".toList,
    wrote := none }

/-- As `toyEvent`, on a full disk: `file.WriteString` fails at once. -/
def fullDiskEvent : Event := { toyEvent with wrote := some 0 }

/-- As `toyEvent`, on a disk that fills up: `file.WriteString` fails after 5
bytes. -/
def tornEvent : Event := { toyEvent with wrote := some 5 }

/-- The invariant of the two counters after `n` counted iterations:
`checkedCount` is `n`, and `foundCount` plus the matches that are counted in
`checkedCount` only so far does not exceed it. -/
def CounterInv (s : State) (n : Nat) : Prop :=
  s.shared.checkedCount = n ∧ 0 ≤ s.shared.foundCount ∧
    s.shared.foundCount + pendingHits s.workers ≤ n

/-- The invariant of the progress messages after `n` counted iterations:
`checkedCount` is `n`, and the messages sent together with those about to be
sent are as many as the multiples of the interval among `1, ..., n`. -/
def ProgressInv (cfg : Config) (s : State) (n : Nat) : Prop :=
  s.shared.checkedCount = n ∧
    ((progressSent s.shared.trace : Int) + pendingProgressCount cfg s.workers) =
      (n : Int) / cfg.interval

/-- The invariant of a lone worker that has finished `n` iterations without a
match: it is at the top of the loop, `checkedCount` is `n` wrapped to 64 bits,
`foundCount` is 0, and it has sent a progress message for every value of
`checkedCount` that was a multiple of the interval. -/
def LoneWorkerInv (cfg : Config) (s : State) (n : Nat) : Prop :=
  (∃ w, s.workers = [w] ∧ w.pc = .generate) ∧
    s.shared.checkedCount = wrapInt64 n ∧ s.shared.foundCount = 0 ∧
    progressSent s.shared.trace = multiplesSeen cfg.interval n

/-- The search against an empty map with the interval 5. -/
def fiveConfig : Config :=
  { prims := toyPrims, fundedAddresses := [], interval := 5 }

/-- A second secret: 31 zero bytes followed by 1. -/
def otherKey : Bytes := List.replicate 31 0 ++ [1]

/-- The search over the toy library functions and the map loaded from a source
with the addresses of `toyKey` and of `otherKey`. -/
def twoConfig : Config :=
  { prims := toyPrims
    fundedAddresses := (loadFundedAddresses (.ok
      { lines := [derivedAddress toyPrims toyKey, derivedAddress toyPrims otherKey],
        err := none })).fundedAddresses
    interval := ProgressNotification }

/-- Worker 0 moves, one second before `toyEvent`; `rand.Read` delivers
`otherKey` and `os.OpenFile` fails. -/
def lostEvent : Event :=
  { worker := 0, rand := some otherKey, openOk := false, now := "2006-02-03 04:05:05".toList,
    wrote := none }

/-- A third secret: 32 bytes `0xff`. -/
def ffKey : Bytes := List.replicate 32 255

/-- The search over the toy library functions and the map loaded from a source
with the address of `ffKey`. -/
def ffConfig : Config :=
  { prims := toyPrims
    fundedAddresses := (loadFundedAddresses (.ok
      { lines := [derivedAddress toyPrims ffKey], err := none })).fundedAddresses
    interval := ProgressNotification }

/-- Worker 0 moves; `rand.Read` delivers `ffKey` and `os.OpenFile` fails. -/
def ffLostEvent : Event :=
  { worker := 0, rand := some ffKey, openOk := false, now := "2006-02-03 04:05:05".toList,
    wrote := none }

/-- Worker 0 moves; `rand.Read` delivers `ffKey`, `os.OpenFile` and
`file.WriteString` succeed. -/
def ffEvent : Event :=
  { worker := 0, rand := some ffKey, openOk := true, now := "2006-02-03 04:05:06".toList,
    wrote := none }

/-! ## A point of P-256 with a short coordinate -/

/-- The prime of the field of P-256. -/
def p256Prime : Nat :=
  115792089210356248762697446949407573530086143415290314195533631308867097853951

/-- The coefficient `b` of the curve equation `y^2 = x^3 - 3x + b` of P-256. -/
def p256B : Nat :=
  41058363725152142129326129780047268409114441015993725554835256314039467401291

/-- The private key 43: 31 zero bytes followed by `0x2b`. -/
def key43 : Bytes := List.replicate 31 0 ++ [0x2b]

/-- The `X` coordinate of `43 * G` on P-256. -/
def key43X : Nat :=
  68940400736695912148960890999721852106142292820061709409680925607912859161229

/-- The `Y` coordinate of `43 * G` on P-256; it is below `2^248`. -/
def key43Y : Nat :=
  107423973961867739917642914452788810230878776317276661678353934116262542999

/-! # Theorems -/

/-! ## The membership set -/

theorem mapIndex_mapAssign (m : GoMap) (k : GoString) (v : Bool) (q : GoString) :
    mapIndex (mapAssign m k v) q = if k = q then v else mapIndex m q := by
  induction m with
  | nil => simp [mapAssign, mapIndex]
  | cons e rest ih =>
    obtain ⟨k1, v1⟩ := e
    by_cases h : k1 = k
    · subst h
      by_cases hq : k1 = q <;> simp [mapAssign, mapIndex, hq]
    · by_cases hq : k1 = q
      · subst hq
        have hne : ¬ k = k1 := fun h2 => h h2.symm
        simp [mapAssign, mapIndex, h, hne]
      · simp [mapAssign, mapIndex, h, hq, ih]

theorem keys_mapAssign (m : GoMap) (k : GoString) (v : Bool) :
    (mapAssign m k v).map Prod.fst =
      if k ∈ m.map Prod.fst then m.map Prod.fst else m.map Prod.fst ++ [k] := by
  induction m with
  | nil => simp [mapAssign]
  | cons e rest ih =>
    obtain ⟨k1, v1⟩ := e
    by_cases h : k1 = k
    · subst h
      simp [mapAssign]
    · have hne : ¬ k = k1 := fun h2 => h h2.symm
      by_cases hm : k ∈ rest.map Prod.fst
      · simp only [mapAssign, h, if_false, List.map_cons, ih, hm, if_true, List.mem_cons,
          or_true]
      · simp only [mapAssign, h, if_false, List.map_cons, ih, hm, List.mem_cons, hne,
          or_self, List.cons_append]

theorem dropWhile_isSpace_of_all (s : GoString) (h : s.all isSpace = true) :
    s.dropWhile isSpace = [] := by
  induction s with
  | nil => rfl
  | cons c rest ih =>
    simp only [List.all_cons, Bool.and_eq_true] at h
    simp [List.dropWhile, h.1, ih h.2]

theorem TrimSpace_eq_nil_iff (s : GoString) : TrimSpace s = [] ↔ isBlank s = true := by
  unfold TrimSpace isBlank
  constructor
  · intro h
    have h1 : (s.dropWhile isSpace).reverse.dropWhile isSpace = [] := by
      simpa using h
    rw [List.dropWhile_eq_nil_iff] at h1
    have h2 : ∀ c ∈ s.dropWhile isSpace, isSpace c = true := by
      intro c hc
      exact h1 c (List.mem_reverse.mpr hc)
    cases hd : s.dropWhile isSpace with
    | nil =>
      rw [List.dropWhile_eq_nil_iff] at hd
      exact List.all_eq_true.mpr hd
    | cons c rest =>
      have hc : isSpace c = true := h2 c (by rw [hd]; exact List.mem_cons_self _ _)
      have hnot := List.head_dropWhile_not isSpace s (by rw [hd]; simp)
      simp [hd, hc] at hnot
  · intro h
    rw [dropWhile_isSpace_of_all s h]
    rfl

theorem loadLoop_mapIndex (lines : List GoString) (st : LoadState) (id : GoString) :
    mapIndex (loadLoop lines st).fundedAddresses id = true ↔
      (mapIndex st.fundedAddresses id = true ∨
        (id ≠ [] ∧ ∃ l ∈ lines, TrimSpace l = id)) := by
  induction lines generalizing st with
  | nil => simp [loadLoop]
  | cons line rest ih =>
    by_cases h : (TrimSpace line).length > 0
    · have hne : TrimSpace line ≠ [] := by
        intro h0
        simp [h0] at h
      simp only [loadLoop, h, if_true, ih, mapIndex_mapAssign, List.mem_cons,
        exists_eq_or_imp]
      by_cases hid : TrimSpace line = id
      · subst hid
        simp [hne]
      · simp [hid]
    · have h0 : TrimSpace line = [] := by
        cases hl : TrimSpace line with
        | nil => rfl
        | cons c cs => simp [hl] at h
      have hstep : loadLoop (line :: rest) st = loadLoop rest st := by
        simp [loadLoop, h0]
      rw [hstep, ih]
      simp only [List.mem_cons, exists_eq_or_imp, h0]
      constructor
      · rintro (h1 | ⟨h1, h2⟩)
        · exact Or.inl h1
        · exact Or.inr ⟨h1, Or.inr h2⟩
      · rintro (h1 | ⟨h1, h2 | h2⟩)
        · exact Or.inl h1
        · exact absurd h2.symm h1
        · exact Or.inr ⟨h1, h2⟩

theorem loadLoop_filter_blank (lines : List GoString) (st : LoadState) :
    loadLoop (lines.filter (fun l => !isBlank l)) st = loadLoop lines st := by
  induction lines generalizing st with
  | nil => rfl
  | cons line rest ih =>
    by_cases hb : isBlank line = true
    · have h0 : TrimSpace line = [] := (TrimSpace_eq_nil_iff line).mpr hb
      simp [List.filter, hb, loadLoop, h0, ih]
    · have hb2 : isBlank line = false := by simpa using hb
      simp only [List.filter, hb2, Bool.not_false, loadLoop, ih]

/-- C1.  After `loadFundedAddresses` has processed a source, the lookup
`fundedAddresses[id]` is true exactly when `id` is non-empty and is the trimmed
text of some line of the source; and blank or white-space-only lines contribute
nothing: the map is the one obtained from the source without them. -/
theorem membership_iff_trimmed_line (src : ScanSource) (id : GoString) :
    (mapIndex (loadFundedAddresses (.ok src)).fundedAddresses id = true ↔
        (id ≠ [] ∧ ∃ l ∈ src.lines, TrimSpace l = id)) ∧
      (loadFundedAddresses (.ok src)).fundedAddresses =
        (loadFundedAddresses
          (.ok { src with lines := src.lines.filter (fun l => !isBlank l) })).fundedAddresses ∧
      (∀ l ∈ src.lines, isBlank l = true →
        mapIndex (loadFundedAddresses (.ok src)).fundedAddresses (TrimSpace l) = false) := by
  have hmap : ∀ s : ScanSource, (loadFundedAddresses (.ok s)).fundedAddresses =
      (loadLoop s.lines { fundedAddresses := [], count := 0 }).fundedAddresses := by
    intro s
    obtain ⟨ls, e⟩ := s
    cases e <;> rfl
  refine ⟨?_, ?_, ?_⟩
  · rw [hmap, loadLoop_mapIndex]
    simp [mapIndex]
  · rw [hmap, hmap, loadLoop_filter_blank]
  · intro l _ hb
    have h0 : TrimSpace l = [] := (TrimSpace_eq_nil_iff l).mpr hb
    have := (loadLoop_mapIndex src.lines { fundedAddresses := [], count := 0 } []).not
    rw [hmap, h0]
    simpa [mapIndex] using this

theorem wrapInt64_of_range (x : Int) (h1 : -(2 ^ 63) ≤ x) (h2 : x < 2 ^ 63) :
    wrapInt64 x = x := by
  unfold wrapInt64
  omega

theorem identifiers_cons (line : GoString) (rest : List GoString) :
    identifiers (line :: rest) =
      if TrimSpace line = [] then identifiers rest else TrimSpace line :: identifiers rest := by
  by_cases h : TrimSpace line = [] <;> simp [identifiers, List.filter, h]

theorem loadLoop_count (lines : List GoString) (st : LoadState)
    (h0 : 0 ≤ st.count) (hb : st.count + (identifiers lines).length < 2 ^ 63) :
    (loadLoop lines st).count = st.count + (identifiers lines).length := by
  induction lines generalizing st with
  | nil => simp [loadLoop, identifiers]
  | cons line rest ih =>
    rw [identifiers_cons] at hb ⊢
    by_cases h : TrimSpace line = []
    · simp only [h, if_true] at hb ⊢
      have hstep : loadLoop (line :: rest) st = loadLoop rest st := by
        simp [loadLoop, h]
      rw [hstep]
      exact ih st h0 hb
    · simp only [h, if_false, List.length_cons, Nat.cast_add, Nat.cast_one] at hb ⊢
      have hlen : (TrimSpace line).length > 0 := List.length_pos.mpr h
      have hw : wrapInt64 (st.count + 1) = st.count + 1 :=
        wrapInt64_of_range _ (by omega) (by omega)
      simp only [loadLoop, hlen, if_true, hw]
      rw [ih]
      · simp only
        ring
      · simp only
        omega
      · simp only
        omega

theorem loadLoop_keys (lines : List GoString) (st : LoadState)
    (hn : (st.fundedAddresses.map Prod.fst).Nodup) :
    ((loadLoop lines st).fundedAddresses.map Prod.fst).Nodup ∧
      ((loadLoop lines st).fundedAddresses.map Prod.fst).toFinset =
        (st.fundedAddresses.map Prod.fst).toFinset ∪ (identifiers lines).toFinset := by
  induction lines generalizing st with
  | nil => simp [loadLoop, identifiers, hn]
  | cons line rest ih =>
    rw [identifiers_cons]
    by_cases h : TrimSpace line = []
    · have hstep : loadLoop (line :: rest) st = loadLoop rest st := by
        simp [loadLoop, h]
      rw [hstep]
      simpa [h] using ih st hn
    · have hlen : (TrimSpace line).length > 0 := List.length_pos.mpr h
      simp only [loadLoop, hlen, if_true, h, if_false]
      have hn2 : ((mapAssign st.fundedAddresses (TrimSpace line) true).map Prod.fst).Nodup := by
        rw [keys_mapAssign]
        split
        · exact hn
        · rename_i hmem
          rw [List.nodup_append]
          refine ⟨hn, List.nodup_singleton _, ?_⟩
          intro a ha hb
          rw [List.mem_singleton] at hb
          subst hb
          exact hmem ha
      have hs : ((mapAssign st.fundedAddresses (TrimSpace line) true).map Prod.fst).toFinset =
          insert (TrimSpace line) (st.fundedAddresses.map Prod.fst).toFinset := by
        rw [keys_mapAssign]
        split
        · rename_i hmem
          rw [Finset.insert_eq_of_mem (List.mem_toFinset.mpr hmem)]
        · ext a
          simp [or_comm]
      obtain ⟨ih1, ih2⟩ := ih
        { fundedAddresses := mapAssign st.fundedAddresses (TrimSpace line) true
          count := wrapInt64 (st.count + 1) } hn2
      refine ⟨ih1, ?_⟩
      rw [ih2]
      simp only [hs, List.toFinset_cons]
      ext a
      simp only [Finset.mem_union, Finset.mem_insert]
      tauto

theorem mapLen_loadLoop (lines : List GoString) :
    mapLen (loadLoop lines { fundedAddresses := [], count := 0 }).fundedAddresses =
      ((identifiers lines).dedup.length : Int) := by
  obtain ⟨h1, h2⟩ := loadLoop_keys lines { fundedAddresses := [], count := 0 } (by simp)
  have hc := List.toFinset_card_of_nodup h1
  rw [h2] at hc
  simp only [List.map_nil, List.toFinset_nil, Finset.empty_union, List.length_map] at hc
  rw [List.card_toFinset] at hc
  unfold mapLen
  rw [hc]

theorem identifiers_length (lines : List GoString) :
    (identifiers lines).length = (lines.filter (fun l => !isBlank l)).length := by
  induction lines with
  | nil => rfl
  | cons line rest ih =>
    rw [identifiers_cons]
    by_cases h : TrimSpace line = []
    · have hbl : isBlank line = true := (TrimSpace_eq_nil_iff line).mp h
      simp [h, List.filter, hbl, ih]
    · have hbl : isBlank line = false := by
        cases hx : isBlank line with
        | false => rfl
        | true => exact absurd ((TrimSpace_eq_nil_iff line).mpr hx) h
      simp [h, List.filter, hbl, ih]

/-- C9, as stated, fails: a source in which an identifier is repeated.  For the
two lines `a`, `a` the loader logs the count 2 while the populated map has one
entry. -/
theorem loaded_count_differs_from_set_size :
    (loadFundedAddresses (.ok { lines := [['a'], ['a']], err := none })).logged = some 2 ∧
      mapLen (loadFundedAddresses
        (.ok { lines := [['a'], ['a']], err := none })).fundedAddresses = 1 := by
  constructor <;> decide

/-- C9, amended.  For a source read without error (and with fewer than 2^63
identifiers), the logged `count` is the number of non-blank lines, `len` of the
map is the number of distinct identifiers among them, so `len ≤ count`, and the
two numbers agree exactly when no identifier occurs on two lines. -/
theorem loaded_count_vs_set_size (lines : List GoString)
    (hb : (identifiers lines).length < 2 ^ 63) :
    (loadFundedAddresses (.ok { lines := lines, err := none })).logged =
        some ((identifiers lines).length : Int) ∧
      (identifiers lines).length = (lines.filter (fun l => !isBlank l)).length ∧
      mapLen (loadFundedAddresses (.ok { lines := lines, err := none })).fundedAddresses =
        ((identifiers lines).dedup.length : Int) ∧
      mapLen (loadFundedAddresses (.ok { lines := lines, err := none })).fundedAddresses ≤
        ((identifiers lines).length : Int) ∧
      (mapLen (loadFundedAddresses (.ok { lines := lines, err := none })).fundedAddresses =
          ((identifiers lines).length : Int) ↔ (identifiers lines).Nodup) := by
  have hcount := loadLoop_count lines { fundedAddresses := [], count := 0 } (le_refl _)
    (by simp only [zero_add]; exact_mod_cast hb)
  have hlen := mapLen_loadLoop lines
  have hle : (identifiers lines).dedup.length ≤ (identifiers lines).length :=
    (List.dedup_sublist _).length_le
  have hfilter := identifiers_length lines
  refine ⟨?_, hfilter, hlen, ?_, ?_⟩
  · show some (loadLoop lines { fundedAddresses := [], count := 0 }).count = _
    rw [hcount]
    simp
  · show mapLen (loadLoop lines { fundedAddresses := [], count := 0 }).fundedAddresses ≤ _
    rw [hlen]
    exact_mod_cast hle
  · show mapLen (loadLoop lines { fundedAddresses := [], count := 0 }).fundedAddresses = _ ↔ _
    rw [hlen]
    constructor
    · intro h
      have h2 : (identifiers lines).dedup.length = (identifiers lines).length := by
        exact_mod_cast h
      have h3 : (identifiers lines).dedup = identifiers lines :=
        (List.dedup_sublist _).eq_of_length h2
      exact List.dedup_eq_self.mp h3
    · intro h
      rw [List.dedup_eq_self.mpr h]

/-- Witness for C9 (amended): three lines, one of them blank, one repeated. -/
theorem loaded_count_vs_set_size_witness :
    (loadFundedAddresses
        (.ok { lines := [['a'], [' '], ['a', ' ']], err := none })).logged = some (2 : Int) ∧
      mapLen (loadFundedAddresses
        (.ok { lines := [['a'], [' '], ['a', ' ']], err := none })).fundedAddresses = 1 := by
  have h := loaded_count_vs_set_size [['a'], [' '], ['a', ' ']] (by decide)
  have hi : identifiers [['a'], [' '], ['a', ' ']] = [['a'], ['a']] := by decide
  rw [hi] at h
  exact ⟨h.1, by rw [h.2.2.1]; decide⟩

/-! ## Start-up -/

theorem launchLoop_length (numThreads : Int) (fuel : Nat) (i : Int) :
    (launchLoop numThreads fuel i).length = min fuel (numThreads - i).toNat := by
  induction fuel generalizing i with
  | zero => simp [launchLoop]
  | succ fuel ih =>
    by_cases h : i < numThreads
    · simp only [launchLoop, h, if_true, List.length_cons, ih]
      omega
    · simp only [launchLoop, h, if_false, List.length_nil]
      omega

/-- The part of the worker count handling that the program does implement:
a positive count is clamped to `MaxWorkers`, and that many workers are started
once the address file has been loaded. -/
theorem positive_worker_count_clamped (n : Int) (hn : 0 < n) (lines : List GoString) :
    ((main 3 (.ok n) (.ok { lines := lines, err := none })).launched : Int) = min n MaxWorkers ∧
      (main 3 (.ok n) (.ok { lines := lines, err := none })).ending = .waiting := by
  have hload : (loadFundedAddresses (.ok { lines := lines, err := none })).err = none := rfl
  unfold main
  simp only [hload, launchLoop_length, MaxWorkers]
  by_cases h : n > 1000
  · simp only [h, if_true]
    constructor
    · simp
      omega
    · decide
  · simp only [h, if_false, ne_eq, not_true_eq_false, sub_zero, min_self]
    have h3 : n.toNat ≠ 0 := by omega
    constructor
    · omega
    · simp [h3]

/-- C7.  The code at a worker count that is not positive: with the arguments
`0` or `-5` and a readable address file, `main` raises no fatal error.  It
announces the count in the start-up message, starts no worker and returns
normally from `wg.Wait()`. -/
theorem nonpositive_worker_count_not_fatal (lines : List GoString) :
    main 3 (.ok 0) (.ok { lines := lines, err := none }) =
        { launched := 0, announced := some 0, ending := .returned } ∧
      main 3 (.ok (-5)) (.ok { lines := lines, err := none }) =
        { launched := 0, announced := some (-5), ending := .returned } := by
  have hload : (loadFundedAddresses (.ok { lines := lines, err := none })).err = none := rfl
  constructor <;> simp [main, hload, MaxWorkers, launchLoop]

/-! ## The serialised public key -/

theorem bytesLoop_eq_digits (fuel n : Nat) (acc : Bytes) (h : n ≤ fuel) :
    bytesLoop fuel n acc =
      ((Nat.digits 256 n).reverse.map (fun d => (Fin.ofNat d : Fin 256))) ++ acc := by
  induction fuel generalizing n acc with
  | zero =>
    have h0 : n = 0 := by omega
    subst h0
    simp [bytesLoop]
  | succ f ih =>
    by_cases hn : n = 0
    · subst hn
      simp [bytesLoop]
    · have hdiv : n / 256 ≤ f := by omega
      rw [bytesLoop, if_neg hn, ih (n / 256) _ hdiv,
        Nat.digits_def' (by norm_num) (Nat.pos_of_ne_zero hn)]
      simp

theorem bigIntBytes_val (n : Nat) :
    (bigIntBytes n).map Fin.val = (Nat.digits 256 n).reverse := by
  unfold bigIntBytes
  rw [bytesLoop_eq_digits n n [] (le_refl n), List.append_nil, List.map_map]
  have hid : ∀ d ∈ (Nat.digits 256 n).reverse,
      (Fin.val ∘ fun d => (Fin.ofNat d : Fin 256)) d = d := by
    intro d hd
    have hlt : d < 256 := Nat.digits_lt_base (by norm_num) (List.mem_reverse.mp hd)
    show d % 256 = d
    exact Nat.mod_eq_of_lt hlt
  rw [List.map_congr_left hid, List.map_id']

theorem bigIntBytes_length (n k : Nat) (h1 : 256 ^ k ≤ n) (h2 : n < 256 ^ (k + 1)) :
    (bigIntBytes n).length = k + 1 := by
  have hlen : ((bigIntBytes n).map Fin.val).length = k + 1 := by
    have hn : n ≠ 0 := by
      have : 0 < 256 ^ k := Nat.pow_pos (by norm_num)
      omega
    rw [bigIntBytes_val, List.length_reverse, Nat.digits_len 256 n (by norm_num) hn,
      Nat.log_eq_of_pow_le_of_lt_pow h1 h2]
  simpa using hlen

theorem bigIntBytes_injective (a b : Nat) (h : bigIntBytes a = bigIntBytes b) : a = b := by
  have h2 : (bigIntBytes a).map Fin.val = (bigIntBytes b).map Fin.val := by rw [h]
  rw [bigIntBytes_val, bigIntBytes_val] at h2
  exact Nat.digits_inj_iff.mp (List.reverse_injective h2)

/-- The part of C10 that the code does satisfy: on coordinates that need all
their 32 bytes (at least `2^248`, below `2^256`) the serialisation is 64 bytes
long and determines both coordinates. -/
theorem pubKeyBytes_full_width (X Y X2 Y2 : Nat)
    (hX : 2 ^ 248 ≤ X ∧ X < 2 ^ 256) (hY : 2 ^ 248 ≤ Y ∧ Y < 2 ^ 256)
    (hX2 : 2 ^ 248 ≤ X2 ∧ X2 < 2 ^ 256) :
    (pubKeyBytes X Y).length = 64 ∧
      (pubKeyBytes X Y = pubKeyBytes X2 Y2 → X = X2 ∧ Y = Y2) := by
  have hlen : ∀ n, 2 ^ 248 ≤ n ∧ n < 2 ^ 256 → (bigIntBytes n).length = 32 := by
    intro n hn
    exact bigIntBytes_length n 31 (by norm_num; exact hn.1) (by norm_num; exact hn.2)
  constructor
  · simp [pubKeyBytes, hlen X hX, hlen Y hY]
  · intro h
    unfold pubKeyBytes at h
    obtain ⟨h1, h2⟩ := List.append_inj h (by rw [hlen X hX, hlen X2 hX2])
    exact ⟨bigIntBytes_injective X X2 h1, bigIntBytes_injective Y Y2 h2⟩

/-- C10.  The code at the public key of the private key 43, a point of P-256
whose `Y` coordinate is below `2^248`: `pubKeyBytes` is 63 bytes long, not 64.
And the serialisation does not determine the coordinates: the pairs (1, 1) and
(257, 0) give the same two bytes. -/
theorem pubKeyBytes_not_fixed_length :
    key43X < 2 ^ 256 ∧ key43Y < 2 ^ 256 ∧
      key43Y ^ 2 % p256Prime = (key43X ^ 3 + (p256Prime - 3) * key43X + p256B) % p256Prime ∧
      (pubKeyBytes key43X key43Y).length = 63 ∧
      pubKeyBytes 1 1 = pubKeyBytes 257 0 := by
  refine ⟨by decide, by decide, by decide, by decide, by decide⟩

/-! ## Hex encoding -/

theorem fromHexChar_hextable (i : Fin 16) :
    fromHexChar (hextable.getD i.val '0') = some i.val := by
  revert i
  decide

theorem DecodeString_EncodeToString (src : Bytes) :
    DecodeString (EncodeToString src) = some src := by
  induction src with
  | nil => rfl
  | cons v rest ih =>
    have hhi := fromHexChar_hextable ⟨v.val / 16, by omega⟩
    have hlo := fromHexChar_hextable ⟨v.val % 16, by omega⟩
    have hv : (Fin.ofNat (v.val / 16 * 16 + v.val % 16) : Fin 256) = v := by
      apply Fin.ext
      show (v.val / 16 * 16 + v.val % 16) % 256 = v.val
      omega
    have hcons : EncodeToString (v :: rest) =
        hextable.getD (v.val / 16) '0' :: hextable.getD (v.val % 16) '0' ::
          EncodeToString rest := rfl
    simp only at hhi hlo
    rw [hcons, DecodeString, hhi, hlo, ih]
    simp only [hv]

/-! ## One iteration of the search loop -/

theorem privateKeyToAddress_ok (P : Primitives) (k : Bytes) :
    privateKeyToAddress P k = .ok (derivedAddress P k) := rfl

theorem generateRandomPrivateKey_length (bs : Bytes) (h : bs.length = 32) :
    generateRandomPrivateKey (some bs) = .ok bs := by
  simp only [generateRandomPrivateKey]
  rw [List.take_append_of_le_length (by omega), List.take_of_length_le (by omega)]

theorem addressSearcherStep_pc_generate_ok (cfg : Config) (ev : Event) (sh : Shared) (w : Worker)
    (key : Bytes) (hpc : w.pc = .generate) (hr : generateRandomPrivateKey ev.rand = .ok key) :
    addressSearcherStep cfg ev sh w = (sh, { w with privateKey := key, pc := .derive }) := by
  simp [addressSearcherStep, hpc, hr]

/-- An uninterrupted iteration that finds no match. -/
theorem addressSearcherIteration_miss (cfg : Config) (ev : Event) (sh : Shared) (w : Worker)
    (key : Bytes) (hpc : w.pc = .generate) (hr : generateRandomPrivateKey ev.rand = .ok key)
    (hf : mapIndex cfg.fundedAddresses (derivedAddress cfg.prims key) = false) :
    addressSearcherIteration cfg ev sh w =
      ({ sh with
          checkedCount := wrapInt64 (sh.checkedCount + 1)
          trace := sh.trace ++
            progressEffect cfg (wrapInt64 (sh.checkedCount + 1)) sh.foundCount },
        { pc := .generate, privateKey := key, address := derivedAddress cfg.prims key,
          isFunded := false, currentChecked := wrapInt64 (sh.checkedCount + 1),
          privateKeyHex := w.privateKeyHex }) := by
  by_cases hp : (wrapInt64 (sh.checkedCount + 1)).tmod cfg.interval = 0 <;>
    simp [addressSearcherIteration, finishIteration, addressSearcherStep, hpc, hr, privateKeyToAddress_ok, hf,
      progressEffect, hp]

/-- An uninterrupted iteration that finds a match and appends it to the file. -/
theorem addressSearcherIteration_hit (cfg : Config) (ev : Event) (sh : Shared) (w : Worker)
    (key : Bytes) (hpc : w.pc = .generate) (hr : generateRandomPrivateKey ev.rand = .ok key)
    (hf : mapIndex cfg.fundedAddresses (derivedAddress cfg.prims key) = true)
    (hm : sh.mutex = false) (ho : ev.openOk = true) :
    addressSearcherIteration cfg ev sh w =
      ({ checkedCount := wrapInt64 (sh.checkedCount + 1)
         foundCount := wrapInt64 (sh.foundCount + 1)
         mutex := false
         trace := sh.trace ++
            progressEffect cfg (wrapInt64 (sh.checkedCount + 1)) sh.foundCount ++
            [.telegram (.found (EncodeToString key) (derivedAddress cfg.prims key)
                (wrapInt64 (sh.foundCount + 1))),
              .openFile true,
              .writeString (matchLine ev.now (EncodeToString key) (derivedAddress cfg.prims key))
                (storedPart ev.wrote
                  (matchLine ev.now (EncodeToString key) (derivedAddress cfg.prims key)))]
         file := sh.file ++ storedPart ev.wrote
            (matchLine ev.now (EncodeToString key) (derivedAddress cfg.prims key)) },
        { pc := .generate, privateKey := key, address := derivedAddress cfg.prims key,
          isFunded := true, currentChecked := wrapInt64 (sh.checkedCount + 1),
          privateKeyHex := EncodeToString key }) := by
  by_cases hp : (wrapInt64 (sh.checkedCount + 1)).tmod cfg.interval = 0 <;>
    simp [addressSearcherIteration, finishIteration, addressSearcherStep, hpc, hr, privateKeyToAddress_ok, hf,
      progressEffect, hp, hm, ho]

/-- An uninterrupted iteration that finds a match but cannot open the file. -/
theorem addressSearcherIteration_hit_open_failed (cfg : Config) (ev : Event) (sh : Shared) (w : Worker)
    (key : Bytes) (hpc : w.pc = .generate) (hr : generateRandomPrivateKey ev.rand = .ok key)
    (hf : mapIndex cfg.fundedAddresses (derivedAddress cfg.prims key) = true)
    (hm : sh.mutex = false) (ho : ev.openOk = false) :
    addressSearcherIteration cfg ev sh w =
      ({ checkedCount := wrapInt64 (sh.checkedCount + 1)
         foundCount := wrapInt64 (sh.foundCount + 1)
         mutex := false
         trace := sh.trace ++
            progressEffect cfg (wrapInt64 (sh.checkedCount + 1)) sh.foundCount ++
            [.telegram (.found (EncodeToString key) (derivedAddress cfg.prims key)
                (wrapInt64 (sh.foundCount + 1))),
              .openFile false]
         file := sh.file },
        { pc := .generate, privateKey := key, address := derivedAddress cfg.prims key,
          isFunded := true, currentChecked := wrapInt64 (sh.checkedCount + 1),
          privateKeyHex := EncodeToString key }) := by
  by_cases hp : (wrapInt64 (sh.checkedCount + 1)).tmod cfg.interval = 0 <;>
    simp [addressSearcherIteration, finishIteration, addressSearcherStep, hpc, hr, privateKeyToAddress_ok, hf,
      progressEffect, hp, hm, ho]

/-! ## Runs of the step machine -/

theorem sum_map_set (f : Worker → Nat) (l : List Worker) (i : Nat) (w v : Worker)
    (h : l[i]? = some w) :
    ((l.set i v).map f).sum + f w = (l.map f).sum + f v := by
  induction l generalizing i with
  | nil => simp at h
  | cons a rest ih =>
    cases i with
    | zero =>
      simp only [List.getElem?_cons_zero, Option.some.injEq] at h
      subst h
      simp only [List.set_cons_zero, List.map_cons, List.sum_cons]
      omega
    | succ j =>
      simp only [List.getElem?_cons_succ] at h
      have := ih j h
      simp only [List.set_cons_succ, List.map_cons, List.sum_cons]
      omega

theorem run_nil (cfg : Config) (s : State) : run cfg s [] = s := rfl

theorem run_cons (cfg : Config) (s : State) (ev : Event) (evs : List Event) :
    run cfg s (ev :: evs) = run cfg (step cfg s ev) evs := rfl

theorem run_append (cfg : Config) (s : State) (a b : List Event) :
    run cfg s (a ++ b) = run cfg (run cfg s a) b := by
  simp [run, List.foldl_append]

theorem countedIterations_append (cfg : Config) (s : State) (a b : List Event) :
    countedIterations cfg s (a ++ b) =
      countedIterations cfg s a + countedIterations cfg (run cfg s a) b := by
  induction a generalizing s with
  | nil => simp [countedIterations, run_nil]
  | cons ev rest ih =>
    rw [List.cons_append]
    simp only [countedIterations, run_cons]
    rw [ih]
    omega

/-- A property that every step preserves holds after every run. -/
theorem run_preserves (cfg : Config) (I : State → Prop)
    (hstep : ∀ s ev, I s → I (step cfg s ev)) (s : State) (evs : List Event) (h : I s) :
    I (run cfg s evs) := by
  induction evs generalizing s with
  | nil => exact h
  | cons ev rest ih => exact ih (step cfg s ev) (hstep s ev h)

/-- A property of a state and of the number of counted iterations that every
step preserves, as long as fewer than `2^63` iterations are counted, holds after
every such run. -/
theorem run_preserves_counted (cfg : Config) (I : State → Nat → Prop)
    (hstep : ∀ s ev n, I s n → n + accountStep s ev < 2 ^ 63 →
      I (step cfg s ev) (n + accountStep s ev))
    (s : State) (evs : List Event) (n : Nat) (h : I s n)
    (hb : n + countedIterations cfg s evs < 2 ^ 63) :
    I (run cfg s evs) (n + countedIterations cfg s evs) := by
  induction evs generalizing s n with
  | nil => exact h
  | cons ev rest ih =>
    simp only [countedIterations] at hb ⊢
    have h1 := hstep s ev n h (by omega)
    have h2 := ih (step cfg s ev) (n + accountStep s ev) h1 (by omega)
    rw [run_cons]
    rw [← Nat.add_assoc]
    exact h2

theorem written_append (a b : List Effect) : written (a ++ b) = written a ++ written b := by
  simp [written, List.filterMap_append]

theorem alerts_append (a b : List Effect) : alerts (a ++ b) = alerts a ++ alerts b := by
  simp [alerts, List.filterMap_append]

theorem openAttempts_append (a b : List Effect) :
    openAttempts (a ++ b) = openAttempts a + openAttempts b := by
  simp [openAttempts, List.countP_append]

theorem progressSent_append (a b : List Effect) :
    progressSent (a ++ b) = progressSent a + progressSent b := by
  simp [progressSent, List.countP_append]

theorem WorkerOK_addressSearcherStep (cfg : Config) (ev : Event) (sh : Shared) (w : Worker)
    (h : WorkerOK cfg w) : WorkerOK cfg (addressSearcherStep cfg ev sh w).2 := by
  obtain ⟨pc, key, address, isFunded, cur, hex⟩ := w
  cases pc
  case generate => cases hg : generateRandomPrivateKey ev.rand <;> simp [addressSearcherStep, hg, WorkerOK]
  case progress =>
    by_cases hp : cur.tmod cfg.interval = 0 <;> simp_all [addressSearcherStep, WorkerOK]
  case hit =>
    simp only [WorkerOK] at h
    obtain ⟨h1, h2⟩ := h
    subst h1
    cases isFunded <;> simp_all [addressSearcherStep, WorkerOK]
  case alert =>
    simp only [WorkerOK] at h
    simp [addressSearcherStep, WorkerOK, h.1, ← h.2]
  case lock =>
    simp only [WorkerOK] at h
    cases hm : sh.mutex <;> simp [addressSearcherStep, WorkerOK, hm, ← h.2.2] <;> exact ⟨h.1, h.2.1⟩
  case openFile =>
    simp only [WorkerOK] at h
    cases ho : ev.openOk <;> simp [addressSearcherStep, WorkerOK, ho, ← h.2.2]
    exact ⟨h.1, h.2.1⟩
  all_goals simp_all [addressSearcherStep, WorkerOK, privateKeyToAddress_ok]

theorem section_addressSearcherStep (cfg : Config) (ev : Event) (sh : Shared) (w : Worker) (others : Nat)
    (h : inSection w + others = if sh.mutex = true then 1 else 0) :
    inSection (addressSearcherStep cfg ev sh w).2 + others =
      if (addressSearcherStep cfg ev sh w).1.mutex = true then 1 else 0 := by
  obtain ⟨pc, key, address, isFunded, cur, hex⟩ := w
  cases hm : sh.mutex <;> simp only [hm, if_true, if_false, Bool.false_eq_true] at h <;> cases pc
  case false.generate | true.generate =>
    cases hg : generateRandomPrivateKey ev.rand <;> simp_all [addressSearcherStep, inSection]
  case false.progress | true.progress =>
    by_cases hp : cur.tmod cfg.interval = 0 <;> simp_all [addressSearcherStep, inSection]
  case false.hit | true.hit => cases isFunded <;> simp_all [addressSearcherStep, inSection]
  case false.openFile | true.openFile =>
    cases ho : ev.openOk <;> simp_all [addressSearcherStep, inSection]
  all_goals simp_all [addressSearcherStep, inSection, privateKeyToAddress_ok]

theorem le_sum_map (f : Worker → Nat) (l : List Worker) (i : Nat) (w : Worker)
    (h : l[i]? = some w) : f w ≤ (l.map f).sum := by
  have hmem : w ∈ l := List.getElem?_mem h
  exact List.single_le_sum (fun _ _ => Nat.zero_le _) _ (List.mem_map_of_mem f hmem)

theorem stored_append (a b : List Effect) : stored (a ++ b) = stored a ++ stored b := by
  simp [stored, List.filterMap_append]

theorem writes_append (a b : List Effect) : writes (a ++ b) = writes a ++ writes b := by
  simp [writes, List.filterMap_append]

theorem successfulOpens_append (a b : List Effect) :
    successfulOpens (a ++ b) = successfulOpens a + successfulOpens b := by
  simp [successfulOpens, List.countP_append]

theorem storedPart_prefix (wrote : Option Nat) (l : GoString) : storedPart wrote l <+: l := by
  cases wrote with
  | none => exact List.prefix_refl l
  | some n => exact List.take_prefix n l

/-- What a step adds to the output file: nothing, or, at the place `write`, the
stored part of the record of the worker's key. -/
theorem written_addressSearcherStep (cfg : Config) (ev : Event) (sh : Shared) (w : Worker)
    (h : WorkerOK cfg w) :
    ∃ new : List (GoString × GoString),
      writes (addressSearcherStep cfg ev sh w).1.trace = writes sh.trace ++ new ∧
      written (addressSearcherStep cfg ev sh w).1.trace = written sh.trace ++ new.map Prod.fst ∧
      stored (addressSearcherStep cfg ev sh w).1.trace = stored sh.trace ++ new.map Prod.snd ∧
      (addressSearcherStep cfg ev sh w).1.file = sh.file ++ (new.map Prod.snd).flatten ∧
      ∀ p ∈ new, IsRecord cfg p.1 ∧ p.2 <+: p.1 := by
  obtain ⟨pc, key, address, isFunded, cur, hex⟩ := w
  cases pc
  case write =>
    simp only [WorkerOK] at h
    obtain ⟨h1, h2, h3⟩ := h
    refine ⟨[(matchLine ev.now hex address, storedPart ev.wrote (matchLine ev.now hex address))],
      ?_, ?_, ?_, ?_, ?_⟩
    · simp [addressSearcherStep, writes_append, writes]
    · simp [addressSearcherStep, written_append, written]
    · simp [addressSearcherStep, stored_append, stored]
    · simp [addressSearcherStep]
    · intro p hp
      rw [List.mem_singleton] at hp
      subst hp
      exact ⟨⟨ev.now, key, by rw [h3, h1], by rw [← h1]; exact h2⟩, storedPart_prefix _ _⟩
  case generate =>
    refine ⟨[], ?_, ?_, ?_, ?_, ?_⟩ <;>
      cases hg : generateRandomPrivateKey ev.rand <;> simp [addressSearcherStep, hg]
  case progress =>
    refine ⟨[], ?_, ?_, ?_, ?_, ?_⟩ <;>
      by_cases hp : cur.tmod cfg.interval = 0 <;>
      simp [addressSearcherStep, hp, written_append, written, stored_append, stored,
        writes_append, writes]
  case hit =>
    refine ⟨[], ?_, ?_, ?_, ?_, ?_⟩ <;> cases isFunded <;> simp [addressSearcherStep]
  case lock =>
    refine ⟨[], ?_, ?_, ?_, ?_, ?_⟩ <;> cases hm : sh.mutex <;> simp [addressSearcherStep, hm]
  case openFile =>
    refine ⟨[], ?_, ?_, ?_, ?_, ?_⟩ <;> cases ho : ev.openOk <;>
      simp [addressSearcherStep, ho, written_append, written, stored_append, stored,
        writes_append, writes]
  all_goals
    refine ⟨[], ?_, ?_, ?_, ?_, ?_⟩ <;>
      simp [addressSearcherStep, privateKeyToAddress_ok, written_append, written, stored_append,
        stored, writes_append, writes]

theorem RecorderInv_step (cfg : Config) (file0 : GoString) (s : State) (ev : Event)
    (h : RecorderInv cfg file0 s) : RecorderInv cfg file0 (step cfg s ev) := by
  unfold step
  cases hw : s.workers[ev.worker]? with
  | none => exact h
  | some w =>
    obtain ⟨hok, hsec, hfile, hrec, hpre⟩ := h
    have hmem : w ∈ s.workers := List.getElem?_mem hw
    have hwok := hok w hmem
    obtain ⟨new, hn0, hn1, hn2, hn3, hn4⟩ := written_addressSearcherStep cfg ev s.shared w hwok
    have hsum := sum_map_set inSection s.workers ev.worker w
      (addressSearcherStep cfg ev s.shared w).2 hw
    have hle := le_sum_map inSection s.workers ev.worker w hw
    have hsec2 := section_addressSearcherStep cfg ev s.shared w
      ((s.workers.map inSection).sum - inSection w)
      (by unfold sectionCount at hsec; rw [← hsec]; omega)
    refine ⟨?_, ?_, ?_, ?_, ?_⟩
    · intro v hv
      rcases List.mem_or_eq_of_mem_set hv with h1 | h1
      · exact hok v h1
      · rw [h1]
        exact WorkerOK_addressSearcherStep cfg ev s.shared w hwok
    · show sectionCount (s.workers.set ev.worker (addressSearcherStep cfg ev s.shared w).2) = _
      unfold sectionCount
      rw [← hsec2]
      omega
    · show (addressSearcherStep cfg ev s.shared w).1.file = _
      rw [hn3, hn2, hfile]
      simp [List.flatten_append]
    · show ∀ l ∈ written (addressSearcherStep cfg ev s.shared w).1.trace, IsRecord cfg l
      intro l hl
      rw [hn1, List.mem_append] at hl
      rcases hl with h1 | h1
      · exact hrec l h1
      · obtain ⟨p, hp, rfl⟩ := List.mem_map.mp h1
        exact (hn4 p hp).1
    · show ∀ p ∈ writes (addressSearcherStep cfg ev s.shared w).1.trace, p.2 <+: p.1
      intro p hp
      rw [hn0, List.mem_append] at hp
      rcases hp with h1 | h1
      · exact hpre p h1
      · exact (hn4 p h1).2

theorem WorkerOK_newWorker (cfg : Config) : WorkerOK cfg newWorker := trivial

theorem RecorderInv_initState (cfg : Config) (numThreads : Nat) (file0 : GoString) :
    RecorderInv cfg file0 (initState numThreads file0) := by
  refine ⟨?_, ?_, ?_, ?_, ?_⟩
  · intro w hw
    rw [List.eq_of_mem_replicate hw]
    exact WorkerOK_newWorker cfg
  · simp [initState, sectionCount, inSection, newWorker]
  · simp [initState, stored]
  · simp [initState, written]
  · simp [initState, writes]

theorem RecorderInv_run (cfg : Config) (numThreads : Nat) (file0 : GoString)
    (evs : List Event) :
    RecorderInv cfg file0 (run cfg (initState numThreads file0) evs) :=
  run_preserves cfg (RecorderInv cfg file0) (RecorderInv_step cfg file0) _ evs
    (RecorderInv_initState cfg numThreads file0)

theorem matchLine_infix (ts hex address : GoString) :
    ts <:+: matchLine ts hex address ∧ hex <:+: matchLine ts hex address ∧
      address <:+: matchLine ts hex address := by
  refine ⟨⟨"[".toList, "] FOUND! PrivateKey: ".toList ++ hex ++ " Address: ".toList ++
      address ++ "\n".toList, ?_⟩,
    ⟨"[".toList ++ ts ++ "] FOUND! PrivateKey: ".toList, " Address: ".toList ++
      address ++ "\n".toList, ?_⟩,
    ⟨"[".toList ++ ts ++ "] FOUND! PrivateKey: ".toList ++ hex ++ " Address: ".toList,
      "\n".toList, ?_⟩⟩ <;>
    simp [matchLine, List.append_assoc]

theorem wrapInt64_succ_ne (x : Int) : wrapInt64 (x + 1) ≠ x := by
  unfold wrapInt64
  omega

theorem NoMatchInv_addressSearcherStep (cfg : Config) (hcfg : cfg.fundedAddresses = []) (ev : Event)
    (sh : Shared) (w : Worker)
    (hw : w.isFunded = false ∧ inSection w = 0 ∧ w.pc ≠ .alert ∧ w.pc ≠ .lock) :
    ((addressSearcherStep cfg ev sh w).2.isFunded = false ∧ inSection (addressSearcherStep cfg ev sh w).2 = 0 ∧
        (addressSearcherStep cfg ev sh w).2.pc ≠ .alert ∧ (addressSearcherStep cfg ev sh w).2.pc ≠ .lock) ∧
      (addressSearcherStep cfg ev sh w).1.foundCount = sh.foundCount ∧
      (addressSearcherStep cfg ev sh w).1.file = sh.file ∧
      written (addressSearcherStep cfg ev sh w).1.trace = written sh.trace ∧
      alerts (addressSearcherStep cfg ev sh w).1.trace = alerts sh.trace ∧
      openAttempts (addressSearcherStep cfg ev sh w).1.trace = openAttempts sh.trace := by
  obtain ⟨pc, key, address, isFunded, cur, hex⟩ := w
  obtain ⟨h1, h2, h3, h4⟩ := hw
  simp only at h1
  subst h1
  cases pc
  case generate =>
    cases hg : generateRandomPrivateKey ev.rand <;> simp [addressSearcherStep, hg, inSection]
  case progress =>
    by_cases hp : cur.tmod cfg.interval = 0 <;>
      simp [addressSearcherStep, hp, inSection, written_append, written, alerts_append, alerts,
        openAttempts_append, openAttempts]
  case alert => exact absurd rfl h3
  case lock => exact absurd rfl h4
  case openFile => simp [inSection] at h2
  case write => simp [inSection] at h2
  case unlock => simp [inSection] at h2
  all_goals simp [addressSearcherStep, inSection, privateKeyToAddress_ok, hcfg, mapIndex]

theorem NoMatchInv_step (cfg : Config) (hcfg : cfg.fundedAddresses = []) (file0 : GoString)
    (s : State) (ev : Event) (h : NoMatchInv file0 s) : NoMatchInv file0 (step cfg s ev) := by
  unfold step
  cases hw : s.workers[ev.worker]? with
  | none => exact h
  | some w =>
    obtain ⟨hws, hf, hfile, hwr, hal, hop⟩ := h
    have hmem : w ∈ s.workers := List.getElem?_mem hw
    obtain ⟨g1, g2, g3, g4, g5, g6⟩ :=
      NoMatchInv_addressSearcherStep cfg hcfg ev s.shared w (hws w hmem)
    refine ⟨?_, ?_, ?_, ?_, ?_, ?_⟩
    · intro v hv
      rcases List.mem_or_eq_of_mem_set hv with h1 | h1
      · exact hws v h1
      · rw [h1]
        exact g1
    · exact g2.trans hf
    · exact g3.trans hfile
    · exact g4.trans hwr
    · exact g5.trans hal
    · exact g6.trans hop

theorem NoMatchInv_run (cfg : Config) (hcfg : cfg.fundedAddresses = []) (numThreads : Nat)
    (file0 : GoString) (evs : List Event) :
    NoMatchInv file0 (run cfg (initState numThreads file0) evs) := by
  apply run_preserves cfg (NoMatchInv file0) (NoMatchInv_step cfg hcfg file0)
  refine ⟨?_, rfl, rfl, rfl, rfl, rfl⟩
  intro w hw
  rw [List.eq_of_mem_replicate hw]
  simp [newWorker, inSection]

/-! ## The counters -/

theorem accountStep_of_getElem (s : State) (ev : Event) (w : Worker)
    (hw : s.workers[ev.worker]? = some w) :
    accountStep s ev = if w.pc = .account then 1 else 0 := by
  simp [accountStep, hw]

theorem accountStep_of_none (s : State) (ev : Event) (hw : s.workers[ev.worker]? = none) :
    accountStep s ev = 0 := by
  simp [accountStep, hw]

theorem counter_addressSearcherStep (cfg : Config) (ev : Event) (sh : Shared) (w : Worker)
    (n others : Nat) (hc : sh.checkedCount = n) (h0 : 0 ≤ sh.foundCount)
    (h : sh.foundCount + pendingHit w + others ≤ n)
    (hb : n + (if w.pc = .account then 1 else 0) < 2 ^ 63) :
    (addressSearcherStep cfg ev sh w).1.checkedCount = ((n + (if w.pc = .account then 1 else 0) : Nat) : Int) ∧
      0 ≤ (addressSearcherStep cfg ev sh w).1.foundCount ∧
      (addressSearcherStep cfg ev sh w).1.foundCount + pendingHit (addressSearcherStep cfg ev sh w).2 + others ≤
        ((n + (if w.pc = .account then 1 else 0) : Nat) : Int) := by
  obtain ⟨pc, key, address, isFunded, cur, hex⟩ := w
  cases pc
  case generate =>
    cases hg : generateRandomPrivateKey ev.rand <;>
      simp_all [addressSearcherStep, pendingHit]
  case account =>
    have hw : wrapInt64 (sh.checkedCount + 1) = sh.checkedCount + 1 :=
      wrapInt64_of_range _ (by omega) (by simp at hb; omega)
    simp only [addressSearcherStep, hw, pendingHit] at h ⊢
    simp only [if_true, Nat.cast_add, Nat.cast_one, hc] at hb ⊢
    refine ⟨trivial, h0, ?_⟩
    split <;> simp at h ⊢ <;> omega
  case progress =>
    by_cases hp : cur.tmod cfg.interval = 0 <;> simp_all [addressSearcherStep, pendingHit]
  case hit =>
    cases isFunded
    · simp_all [addressSearcherStep, pendingHit]
    · simp only [pendingHit, if_true, Nat.cast_one] at h
      have hw : wrapInt64 (sh.foundCount + 1) = sh.foundCount + 1 :=
        wrapInt64_of_range _ (by omega) (by simp at hb; omega)
      simp only [addressSearcherStep, if_true, hw, pendingHit]
      simp
      omega
  case lock => cases hm : sh.mutex <;> simp_all [addressSearcherStep, pendingHit]
  case openFile => cases ho : ev.openOk <;> simp_all [addressSearcherStep, pendingHit]
  all_goals simp_all [addressSearcherStep, pendingHit, privateKeyToAddress_ok]

theorem CounterInv_step (cfg : Config) (s : State) (ev : Event) (n : Nat)
    (h : CounterInv s n) (hb : n + accountStep s ev < 2 ^ 63) :
    CounterInv (step cfg s ev) (n + accountStep s ev) := by
  unfold step
  cases hw : s.workers[ev.worker]? with
  | none =>
    rw [accountStep_of_none s ev hw]
    exact h
  | some w =>
    rw [accountStep_of_getElem s ev w hw] at hb ⊢
    obtain ⟨hc, h0, hp⟩ := h
    have hle := le_sum_map pendingHit s.workers ev.worker w hw
    have hsum := sum_map_set pendingHit s.workers ev.worker w
      (addressSearcherStep cfg ev s.shared w).2 hw
    unfold pendingHits at hp
    obtain ⟨g1, g2, g3⟩ := counter_addressSearcherStep cfg ev s.shared w n
      ((s.workers.map pendingHit).sum - pendingHit w) hc h0 (by omega) hb
    refine ⟨g1, g2, ?_⟩
    show (addressSearcherStep cfg ev s.shared w).1.foundCount +
      pendingHits (s.workers.set ev.worker (addressSearcherStep cfg ev s.shared w).2) ≤ _
    unfold pendingHits
    omega

theorem CounterInv_initState (numThreads : Nat) (file0 : GoString) :
    CounterInv (initState numThreads file0) 0 := by
  refine ⟨rfl, le_refl _, ?_⟩
  have : pendingHits (List.replicate numThreads newWorker) = 0 := by
    unfold pendingHits
    induction numThreads with
    | zero => rfl
    | succ k ih => simp [List.replicate_succ, pendingHit, newWorker, ih]
  simp [initState, this]

theorem CounterInv_run (cfg : Config) (numThreads : Nat) (file0 : GoString) (evs : List Event)
    (hb : countedIterations cfg (initState numThreads file0) evs < 2 ^ 63) :
    CounterInv (run cfg (initState numThreads file0) evs)
      (countedIterations cfg (initState numThreads file0) evs) := by
  have h := run_preserves_counted cfg CounterInv (fun s ev n => CounterInv_step cfg s ev n)
    (initState numThreads file0) evs 0 (CounterInv_initState numThreads file0)
    (by rw [Nat.zero_add]; exact hb)
  rw [Nat.zero_add] at h
  exact h

theorem tmod_eq_zero_iff_emod (x m : Int) : x.tmod m = 0 ↔ x % m = 0 := by
  rw [← Int.dvd_iff_tmod_eq_zero, Int.dvd_iff_emod_eq_zero]

theorem succ_ediv (n : Nat) (m : Int) (hm : 0 < m) :
    ((n : Int) + 1) / m = (n : Int) / m + if ((n : Int) + 1).tmod m = 0 then 1 else 0 := by
  obtain ⟨k, rfl⟩ := Int.eq_ofNat_of_zero_le (le_of_lt hm)
  have h := Nat.succ_div n k
  have hd : ((n : Int) + 1).tmod (k : Int) = 0 ↔ k ∣ n + 1 := by
    rw [← Int.dvd_iff_tmod_eq_zero]
    exact_mod_cast Iff.rfl
  by_cases hk : k ∣ n + 1
  · rw [if_pos (hd.mpr hk)]
    rw [if_pos hk] at h
    exact_mod_cast h
  · rw [if_neg (fun h2 => hk (hd.mp h2))]
    rw [if_neg hk] at h
    exact_mod_cast h

theorem progressSent_snoc_progress (t : List Effect) (c f : Int) :
    progressSent (t ++ [.telegram (.progress c f)]) = progressSent t + 1 := by
  simp [progressSent, List.countP_append]

theorem progressSent_snoc_found (t : List Effect) (h a : GoString) (n : Int) :
    progressSent (t ++ [.telegram (.found h a n)]) = progressSent t := by
  simp [progressSent, List.countP_append]

theorem progressSent_snoc_openFile (t : List Effect) (ok : Bool) :
    progressSent (t ++ [.openFile ok]) = progressSent t := by
  simp [progressSent, List.countP_append]

theorem progressSent_snoc_writeString (t : List Effect) (l p : GoString) :
    progressSent (t ++ [.writeString l p]) = progressSent t := by
  simp [progressSent, List.countP_append]

theorem progress_addressSearcherStep (cfg : Config) (hI : 0 < cfg.interval) (ev : Event) (sh : Shared)
    (w : Worker) (n others : Nat) (hc : sh.checkedCount = n)
    (h : ((progressSent sh.trace : Int) + pendingProgress cfg w + others) =
      (n : Int) / cfg.interval)
    (hb : n + (if w.pc = .account then 1 else 0) < 2 ^ 63) :
    (addressSearcherStep cfg ev sh w).1.checkedCount = ((n + (if w.pc = .account then 1 else 0) : Nat) : Int) ∧
      ((progressSent (addressSearcherStep cfg ev sh w).1.trace : Int) +
          pendingProgress cfg (addressSearcherStep cfg ev sh w).2 + others) =
        ((n + (if w.pc = .account then 1 else 0) : Nat) : Int) / cfg.interval := by
  obtain ⟨pc, key, address, isFunded, cur, hex⟩ := w
  cases pc
  case generate =>
    cases hg : generateRandomPrivateKey ev.rand <;>
      simp_all [addressSearcherStep, pendingProgress]
  case account =>
    have hw : wrapInt64 (sh.checkedCount + 1) = sh.checkedCount + 1 :=
      wrapInt64_of_range _ (by omega) (by simp at hb; omega)
    simp only [addressSearcherStep, hw, pendingProgress] at h ⊢
    simp only [if_true, Nat.cast_add, Nat.cast_one, hc] at hb ⊢
    refine ⟨trivial, ?_⟩
    rw [succ_ediv n cfg.interval hI, ← h]
    split <;> simp
    ring
  case progress =>
    by_cases hp : cur.tmod cfg.interval = 0
    · simp only [pendingProgress, hp, if_true] at h
      simp only [addressSearcherStep, hp, if_true, pendingProgress, progressSent_snoc_progress]
      refine ⟨by simpa using hc, ?_⟩
      have hz : (if PC.progress = PC.account then 1 else 0) = 0 := by decide
      simp only [hz, Nat.add_zero, Nat.cast_add, Nat.cast_one, Nat.cast_zero] at h ⊢
      linarith
    · simp_all [addressSearcherStep, pendingProgress]
  case hit => cases isFunded <;> simp_all [addressSearcherStep, pendingProgress]
  case alert => simp_all [addressSearcherStep, pendingProgress, progressSent_snoc_found]
  case lock => cases hm : sh.mutex <;> simp_all [addressSearcherStep, pendingProgress]
  case openFile =>
    cases ho : ev.openOk <;> simp_all [addressSearcherStep, pendingProgress, progressSent_snoc_openFile]
  case write => simp_all [addressSearcherStep, pendingProgress, progressSent_snoc_writeString]
  all_goals simp_all [addressSearcherStep, pendingProgress, privateKeyToAddress_ok]

theorem ProgressInv_step (cfg : Config) (hI : 0 < cfg.interval) (s : State) (ev : Event)
    (n : Nat) (h : ProgressInv cfg s n) (hb : n + accountStep s ev < 2 ^ 63) :
    ProgressInv cfg (step cfg s ev) (n + accountStep s ev) := by
  unfold step
  cases hw : s.workers[ev.worker]? with
  | none =>
    rw [accountStep_of_none s ev hw]
    exact h
  | some w =>
    rw [accountStep_of_getElem s ev w hw] at hb ⊢
    obtain ⟨hc, hp⟩ := h
    have hle := le_sum_map (pendingProgress cfg) s.workers ev.worker w hw
    have hsum := sum_map_set (pendingProgress cfg) s.workers ev.worker w
      (addressSearcherStep cfg ev s.shared w).2 hw
    unfold pendingProgressCount at hp
    obtain ⟨g1, g2⟩ := progress_addressSearcherStep cfg hI ev s.shared w n
      ((s.workers.map (pendingProgress cfg)).sum - pendingProgress cfg w) hc
      (by rw [← hp]; omega) hb
    refine ⟨g1, ?_⟩
    show ((progressSent (addressSearcherStep cfg ev s.shared w).1.trace : Int) +
      pendingProgressCount cfg (s.workers.set ev.worker (addressSearcherStep cfg ev s.shared w).2)) = _
    unfold pendingProgressCount
    rw [← g2]
    omega

theorem ProgressInv_initState (cfg : Config) (numThreads : Nat) (file0 : GoString) :
    ProgressInv cfg (initState numThreads file0) 0 := by
  refine ⟨rfl, ?_⟩
  have : pendingProgressCount cfg (List.replicate numThreads newWorker) = 0 := by
    unfold pendingProgressCount
    induction numThreads with
    | zero => rfl
    | succ k ih => simp [List.replicate_succ, pendingProgress, newWorker, ih]
  simp [initState, this, progressSent]

theorem ProgressInv_run (cfg : Config) (hI : 0 < cfg.interval) (numThreads : Nat)
    (file0 : GoString) (evs : List Event)
    (hb : countedIterations cfg (initState numThreads file0) evs < 2 ^ 63) :
    ProgressInv cfg (run cfg (initState numThreads file0) evs)
      (countedIterations cfg (initState numThreads file0) evs) := by
  have h := run_preserves_counted cfg (ProgressInv cfg)
    (fun s ev n => ProgressInv_step cfg hI s ev n)
    (initState numThreads file0) evs 0 (ProgressInv_initState cfg numThreads file0)
    (by rw [Nat.zero_add]; exact hb)
  rw [Nat.zero_add] at h
  exact h

/-! ## A lone worker that never finds a match -/

theorem wrapInt64_wrapInt64_succ (x : Int) : wrapInt64 (wrapInt64 x + 1) = wrapInt64 (x + 1) := by
  unfold wrapInt64
  omega

theorem toyEvent_rand : generateRandomPrivateKey toyEvent.rand = .ok toyKey := rfl

theorem toyEvent_worker : toyEvent.worker = 0 := rfl

theorem step_lone (cfg : Config) (sh : Shared) (w : Worker) :
    step cfg { shared := sh, workers := [w] } toyEvent =
      { shared := (addressSearcherStep cfg toyEvent sh w).1,
        workers := [(addressSearcherStep cfg toyEvent sh w).2] } := by
  simp [step, toyEvent_worker]

theorem accountStep_lone (sh : Shared) (w : Worker) :
    accountStep { shared := sh, workers := [w] } toyEvent =
      if w.pc = .account then 1 else 0 := by
  simp [accountStep, toyEvent_worker]

theorem lone_generate (cfg : Config) (sh : Shared)
    (key : Bytes) (address : GoString) (isFunded : Bool) (cur : Int) (hex : GoString) :
    step cfg { shared := sh, workers := [⟨.generate, key, address, isFunded, cur, hex⟩] } toyEvent =
      { shared := sh,
        workers := [⟨.derive, toyKey, address, isFunded, cur, hex⟩] } := by
  simp [step_lone, addressSearcherStep, toyEvent_rand]

theorem lone_derive (cfg : Config) (sh : Shared)
    (key : Bytes) (address : GoString) (isFunded : Bool) (cur : Int) (hex : GoString) :
    step cfg { shared := sh, workers := [⟨.derive, key, address, isFunded, cur, hex⟩] } toyEvent =
      { shared := sh,
        workers := [⟨.check, key, derivedAddress cfg.prims key, isFunded, cur, hex⟩] } := by
  simp [step_lone, addressSearcherStep, privateKeyToAddress_ok]

theorem lone_check (cfg : Config) (sh : Shared)
    (key : Bytes) (address : GoString) (isFunded : Bool) (cur : Int) (hex : GoString) (hcfg : cfg.fundedAddresses = []) :
    step cfg { shared := sh, workers := [⟨.check, key, address, isFunded, cur, hex⟩] } toyEvent =
      { shared := sh,
        workers := [⟨.account, key, address, false, cur, hex⟩] } := by
  simp [step_lone, addressSearcherStep, hcfg, mapIndex]

theorem lone_account (cfg : Config) (sh : Shared)
    (key : Bytes) (address : GoString) (isFunded : Bool) (cur : Int) (hex : GoString) :
    step cfg { shared := sh, workers := [⟨.account, key, address, isFunded, cur, hex⟩] } toyEvent =
      { shared := { sh with checkedCount := wrapInt64 (sh.checkedCount + 1) },
        workers := [⟨.progress, key, address, isFunded, wrapInt64 (sh.checkedCount + 1), hex⟩] } := by
  simp [step_lone, addressSearcherStep]

theorem lone_progress (cfg : Config) (sh : Shared)
    (key : Bytes) (address : GoString) (isFunded : Bool) (cur : Int) (hex : GoString) :
    step cfg { shared := sh, workers := [⟨.progress, key, address, isFunded, cur, hex⟩] } toyEvent =
      { shared := { sh with trace := sh.trace ++ progressEffect cfg cur sh.foundCount },
        workers := [⟨.hit, key, address, isFunded, cur, hex⟩] } := by
  by_cases hp : cur.tmod cfg.interval = 0 <;>
    simp [step_lone, addressSearcherStep, progressEffect, hp]

theorem lone_miss (cfg : Config) (sh : Shared)
    (key : Bytes) (address : GoString) (cur : Int) (hex : GoString) :
    step cfg { shared := sh, workers := [⟨.hit, key, address, false, cur, hex⟩] } toyEvent =
      { shared := sh,
        workers := [⟨.throttle, key, address, false, cur, hex⟩] } := by
  simp [step_lone, addressSearcherStep]

theorem lone_throttle (cfg : Config) (sh : Shared)
    (key : Bytes) (address : GoString) (isFunded : Bool) (cur : Int) (hex : GoString) :
    step cfg { shared := sh, workers := [⟨.throttle, key, address, isFunded, cur, hex⟩] } toyEvent =
      { shared := sh,
        workers := [⟨.generate, key, address, isFunded, cur, hex⟩] } := by
  simp [step_lone, addressSearcherStep]

theorem LoneWorkerInv_cycle (cfg : Config) (hcfg : cfg.fundedAddresses = []) (s : State)
    (n : Nat) (h : LoneWorkerInv cfg s n) :
    LoneWorkerInv cfg (run cfg s (List.replicate 7 toyEvent)) (n + 1) ∧
      countedIterations cfg s (List.replicate 7 toyEvent) = 1 := by
  obtain ⟨sh, ws⟩ := s
  obtain ⟨⟨w, hws, hpc⟩, hc, hf, hp⟩ := h
  simp only at hws hc hf hp
  subst hws
  obtain ⟨pc, key, address, isFunded, cur, hex⟩ := w
  simp only at hpc
  subst hpc
  have hstep : wrapInt64 (sh.checkedCount + 1) = wrapInt64 ((n : Int) + 1) := by
    rw [hc, wrapInt64_wrapInt64_succ]
  have hlist : List.replicate 7 toyEvent =
      [toyEvent, toyEvent, toyEvent, toyEvent, toyEvent, toyEvent, toyEvent] := rfl
  rw [hlist]
  constructor
  · simp only [run, List.foldl]
    rw [lone_generate, lone_derive, lone_check cfg _ _ _ _ _ _ hcfg, lone_account, lone_progress,
      lone_miss, lone_throttle]
    refine ⟨⟨_, rfl, rfl⟩, ?_, hf, ?_⟩
    · show wrapInt64 (sh.checkedCount + 1) = _
      rw [hstep]
      simp only [Nat.cast_add, Nat.cast_one]
    · show progressSent (sh.trace ++
        progressEffect cfg (wrapInt64 (sh.checkedCount + 1)) sh.foundCount) = _
      rw [progressSent_append, hp, hstep]
      simp only [multiplesSeen, progressEffect]
      split <;> simp [progressSent]
  · simp only [countedIterations]
    rw [lone_generate, lone_derive, lone_check cfg _ _ _ _ _ _ hcfg, lone_account, lone_progress,
      lone_miss]
    simp [accountStep_lone]

theorem LoneWorkerInv_run (cfg : Config) (hcfg : cfg.fundedAddresses = []) (file0 : GoString)
    (n : Nat) :
    LoneWorkerInv cfg (run cfg (initState 1 file0) (List.replicate (7 * n) toyEvent)) n ∧
      countedIterations cfg (initState 1 file0) (List.replicate (7 * n) toyEvent) = n := by
  induction n with
  | zero =>
    refine ⟨⟨⟨newWorker, rfl, rfl⟩, rfl, rfl, rfl⟩, rfl⟩
  | succ k ih =>
    have hsplit : List.replicate (7 * (k + 1)) toyEvent =
        List.replicate (7 * k) toyEvent ++ List.replicate 7 toyEvent := by
      rw [Nat.mul_succ, List.replicate_add]
    obtain ⟨h1, h2⟩ := ih
    obtain ⟨g1, g2⟩ := LoneWorkerInv_cycle cfg hcfg _ k h1
    rw [hsplit, run_append, countedIterations_append, h2, g2]
    exact ⟨g1, rfl⟩

theorem multiplesSeen_of_lt (m : Int) (hm : 0 < m) (n : Nat) (hn : n < 2 ^ 63) :
    (multiplesSeen m n : Int) = (n : Int) / m := by
  induction n with
  | zero => simp [multiplesSeen]
  | succ k ih =>
    have hw : wrapInt64 ((k : Int) + 1) = (k : Int) + 1 :=
      wrapInt64_of_range _ (by omega) (by omega)
    have hk := ih (by omega)
    simp only [multiplesSeen, hw, Nat.cast_add, Nat.cast_one, hk]
    rw [succ_ediv k m hm]
    split <;> simp

theorem multiplesSeen_skip (m : Int) (a d : Nat)
    (h : ∀ k, a ≤ k → k < a + d → (wrapInt64 ((k : Int) + 1)).tmod m ≠ 0) :
    multiplesSeen m (a + d) = multiplesSeen m a := by
  induction d with
  | zero => rfl
  | succ e ih =>
    have h1 := ih (fun k hk1 hk2 => h k hk1 (by omega))
    have h2 := h (a + e) (by omega) (by omega)
    rw [← Nat.add_assoc]
    simp only [multiplesSeen, h1]
    rw [if_neg (by exact_mod_cast h2)]
    rfl

/-! ## The two counters and the progress messages -/

/-- C2, as stated, fails once `checkedCount` wraps around: a lone worker
against an empty map, scheduled for `2^63` iterations of seven steps each.
`foundCount` is still 0 and `checkedCount`, incremented from `2^63 - 1`, is
`-2^63`. -/
theorem found_exceeds_checked_after_wrap :
    countedIterations emptyConfig (initState 1 []) (List.replicate (7 * 2 ^ 63) toyEvent) =
        2 ^ 63 ∧
      (run emptyConfig (initState 1 []) (List.replicate (7 * 2 ^ 63) toyEvent)).shared.foundCount
        = 0 ∧
      (run emptyConfig (initState 1 []) (List.replicate (7 * 2 ^ 63) toyEvent)).shared.checkedCount
        = -(2 ^ 63) ∧
      ¬ ((run emptyConfig (initState 1 []) (List.replicate (7 * 2 ^ 63) toyEvent)).shared.foundCount
        ≤ (run emptyConfig (initState 1 [])
            (List.replicate (7 * 2 ^ 63) toyEvent)).shared.checkedCount) := by
  obtain ⟨⟨_, hc, hf, _⟩, hcount⟩ := LoneWorkerInv_run emptyConfig rfl [] (2 ^ 63)
  have hw : wrapInt64 ((2 ^ 63 : Nat) : Int) = -(2 ^ 63) := by
    unfold wrapInt64
    norm_num
  rw [hw] at hc
  refine ⟨hcount, hf, hc, ?_⟩
  rw [hf, hc]
  norm_num

/-- C2, amended.  In every state that any number of workers reach from both
counters at zero, under every interleaving of their steps, as long as fewer than
`2^63` iterations have been counted: `checkedCount` is the number of counted
iterations, `foundCount` is not negative, and `foundCount ≤ checkedCount`. -/
theorem found_le_checked (cfg : Config) (numThreads : Nat) (file0 : GoString)
    (evs : List Event)
    (hb : countedIterations cfg (initState numThreads file0) evs < 2 ^ 63) :
    (run cfg (initState numThreads file0) evs).shared.foundCount ≤
        (run cfg (initState numThreads file0) evs).shared.checkedCount ∧
      0 ≤ (run cfg (initState numThreads file0) evs).shared.foundCount ∧
      (run cfg (initState numThreads file0) evs).shared.checkedCount =
        (countedIterations cfg (initState numThreads file0) evs : Int) := by
  obtain ⟨h1, h2, h3⟩ := CounterInv_run cfg numThreads file0 evs hb
  refine ⟨?_, h2, h1⟩
  rw [h1]
  have : (0 : Int) ≤ (pendingHits (run cfg (initState numThreads file0) evs).workers : Int) :=
    Int.ofNat_nonneg _
  omega

/-- Witness for C2 (amended): two workers, the first of which runs a whole
iteration that finds a match. -/
theorem found_le_checked_witness :
    (run toyConfig (initState 2 []) (List.replicate 12 toyEvent)).shared.foundCount ≤
        (run toyConfig (initState 2 []) (List.replicate 12 toyEvent)).shared.checkedCount ∧
      (run toyConfig (initState 2 []) (List.replicate 12 toyEvent)).shared.foundCount = 1 :=
  ⟨(found_le_checked toyConfig 2 [] (List.replicate 12 toyEvent) (by decide)).1, by decide⟩

theorem pendingProgressCount_lone (cfg : Config) (s : State) (n : Nat)
    (h : LoneWorkerInv cfg s n) : pendingProgressCount cfg s.workers = 0 := by
  obtain ⟨⟨w, hws, hpc⟩, _⟩ := h
  simp [pendingProgressCount, hws, pendingProgress, hpc]

/-- C3, as stated, fails once `checkedCount` wraps around: a lone worker
against an empty map with the interval of the program, scheduled for
9223372036855000000 iterations of seven steps each.  The worker is at the top
of the loop, that many iterations are counted, a multiple of 1000000, and
9223372036854 progress messages have been sent, one less than the quotient. -/
theorem progress_count_off_after_wrap :
    countedIterations emptyConfig (initState 1 [])
        (List.replicate (7 * 9223372036855000000) toyEvent) = 9223372036855000000 ∧
      pendingProgressCount emptyConfig (run emptyConfig (initState 1 [])
        (List.replicate (7 * 9223372036855000000) toyEvent)).workers = 0 ∧
      progressSent (run emptyConfig (initState 1 [])
        (List.replicate (7 * 9223372036855000000) toyEvent)).shared.trace = 9223372036854 ∧
      (9223372036855000000 : Int) / emptyConfig.interval = 9223372036855 := by
  obtain ⟨hinv, hcount⟩ := LoneWorkerInv_run emptyConfig rfl [] 9223372036855000000
  have hpend := pendingProgressCount_lone emptyConfig _ _ hinv
  obtain ⟨_, _, _, hp⟩ := hinv
  have hI : emptyConfig.interval = 1000000 := rfl
  have hskip : multiplesSeen 1000000 (9223372036854775807 + 224193) =
      multiplesSeen 1000000 9223372036854775807 := by
    apply multiplesSeen_skip
    intro k h1 h2
    have hw : wrapInt64 ((k : Int) + 1) = (k : Int) + 1 - 18446744073709551616 := by
      unfold wrapInt64
      omega
    rw [Ne, tmod_eq_zero_iff_emod, hw]
    omega
  have hlow := multiplesSeen_of_lt 1000000 (by norm_num) 9223372036854775807 (by norm_num)
  have hval : multiplesSeen 1000000 9223372036854775807 = 9223372036854 := by
    have h2 : ((9223372036854775807 : Nat) : Int) / 1000000 = ((9223372036854 : Nat) : Int) := by
      norm_num
    rw [h2] at hlow
    exact_mod_cast hlow
  refine ⟨hcount, hpend, ?_, ?_⟩
  · rw [hp, hI]
    have hsum : (9223372036855000000 : Nat) = 9223372036854775807 + 224193 := by norm_num
    rw [hsum, hskip, hval]
  · rw [hI]
    norm_num

/-- C3, amended.  For every positive interval: the increment stores the new
value of `checkedCount` in `currentChecked`; the step that follows sends one
progress message if that value is a multiple of the interval and none otherwise;
no other step sends a progress message.  Hence in every state that any number
of workers reach from `checkedCount = 0`, as long as fewer than `2^63`
iterations have been counted, the progress messages sent, together with those
of the workers that have incremented and not yet reached the test, number
`floor(n / interval)` for the `n` iterations counted; when no worker is between
its increment and its test, exactly that many have been sent. -/
theorem progress_every_interval (cfg : Config) (hI : 0 < cfg.interval) (numThreads : Nat)
    (file0 : GoString) (evs : List Event)
    (hb : countedIterations cfg (initState numThreads file0) evs < 2 ^ 63) :
    (∀ ev sh w, w.pc = .account →
        (addressSearcherStep cfg ev sh w).1.checkedCount = wrapInt64 (sh.checkedCount + 1) ∧
        (addressSearcherStep cfg ev sh w).2.currentChecked = (addressSearcherStep cfg ev sh w).1.checkedCount ∧
        (addressSearcherStep cfg ev sh w).2.pc = .progress) ∧
      (∀ ev sh w, w.pc = .progress →
        (addressSearcherStep cfg ev sh w).1.trace =
          sh.trace ++ progressEffect cfg w.currentChecked sh.foundCount ∧
        progressSent (addressSearcherStep cfg ev sh w).1.trace =
          progressSent sh.trace + (if cfg.interval ∣ w.currentChecked then 1 else 0)) ∧
      (∀ ev sh w, w.pc ≠ .progress →
        progressSent (addressSearcherStep cfg ev sh w).1.trace = progressSent sh.trace) ∧
      ((progressSent (run cfg (initState numThreads file0) evs).shared.trace : Int) +
          pendingProgressCount cfg (run cfg (initState numThreads file0) evs).workers =
        (countedIterations cfg (initState numThreads file0) evs : Int) / cfg.interval) ∧
      (pendingProgressCount cfg (run cfg (initState numThreads file0) evs).workers = 0 →
        (progressSent (run cfg (initState numThreads file0) evs).shared.trace : Int) =
          (countedIterations cfg (initState numThreads file0) evs : Int) / cfg.interval) := by
  obtain ⟨_, hp⟩ := ProgressInv_run cfg hI numThreads file0 evs hb
  refine ⟨?_, ?_, ?_, hp, ?_⟩
  · intro ev sh w hpc
    simp [addressSearcherStep, hpc]
  · intro ev sh w hpc
    by_cases hm : w.currentChecked.tmod cfg.interval = 0
    · have hd : cfg.interval ∣ w.currentChecked := Int.dvd_iff_tmod_eq_zero.mpr hm
      simp [addressSearcherStep, hpc, hm, progressEffect, hd, progressSent_snoc_progress]
    · have hd : ¬ cfg.interval ∣ w.currentChecked :=
        fun h => hm (Int.dvd_iff_tmod_eq_zero.mp h)
      simp [addressSearcherStep, hpc, hm, progressEffect, hd]
  · intro ev sh w hpc
    obtain ⟨pc, key, address, isFunded, cur, hex⟩ := w
    cases pc
    case generate => cases hg : generateRandomPrivateKey ev.rand <;> simp [addressSearcherStep, hg]
    case progress => exact absurd rfl hpc
    case hit => cases isFunded <;> simp [addressSearcherStep]
    case lock => cases hm : sh.mutex <;> simp [addressSearcherStep, hm]
    case openFile =>
      cases ho : ev.openOk <;> simp [addressSearcherStep, ho, progressSent_snoc_openFile]
    all_goals
      simp [addressSearcherStep, privateKeyToAddress_ok, progressSent_snoc_found,
        progressSent_snoc_writeString]
  · intro h0
    rw [h0] at hp
    simpa using hp

/-- Witness for C3 (amended): the interval 5 and a lone worker that runs 15
iterations; it has sent 3 progress messages. -/
theorem progress_every_interval_witness :
    countedIterations fiveConfig (initState 1 []) (List.replicate 105 toyEvent) = 15 ∧
      progressSent (run fiveConfig (initState 1 [])
        (List.replicate 105 toyEvent)).shared.trace = 3 := by
  have hc : countedIterations fiveConfig (initState 1 []) (List.replicate 105 toyEvent) = 15 := by
    decide
  have h := (progress_every_interval fiveConfig (by decide) 1 []
    (List.replicate 105 toyEvent) (by rw [hc]; norm_num)).2.2.2.2 (by decide)
  rw [hc] at h
  have h3 : ((15 : Nat) : Int) / fiveConfig.interval = ((3 : Nat) : Int) := by decide
  rw [h3] at h
  exact ⟨hc, by exact_mod_cast h⟩

/-! ## The bookkeeping of the matches -/

theorem memberIterations_append (cfg : Config) (s : State) (a b : List Event) :
    memberIterations cfg s (a ++ b) =
      memberIterations cfg s a + memberIterations cfg (run cfg s a) b := by
  induction a generalizing s with
  | nil => simp [memberIterations, run_nil]
  | cons ev rest ih =>
    rw [List.cons_append]
    simp only [memberIterations, run_cons]
    rw [ih]
    omega

/-- A property of a state and of the number of iterations with an address in
the map that every step preserves holds after every run. -/
theorem run_preserves_members (cfg : Config) (I : State → Nat → Prop)
    (hstep : ∀ s ev n, I s n → I (step cfg s ev) (n + memberStep cfg s ev))
    (s : State) (evs : List Event) (n : Nat) (h : I s n) :
    I (run cfg s evs) (n + memberIterations cfg s evs) := by
  induction evs generalizing s n with
  | nil => exact h
  | cons ev rest ih =>
    simp only [memberIterations]
    have h2 := ih (step cfg s ev) (n + memberStep cfg s ev) (hstep s ev n h)
    rw [run_cons, ← Nat.add_assoc]
    exact h2

theorem wrapInt64_congr_succ (x y : Int) (h : x = wrapInt64 y) :
    wrapInt64 (x + 1) = wrapInt64 (y + 1) := by
  rw [h, wrapInt64_wrapInt64_succ]

theorem openAttempts_single_progress (c f : Int) :
    openAttempts [.telegram (.progress c f)] = 0 := by
  simp [openAttempts]

theorem openAttempts_single_found (h a : GoString) (n : Int) :
    openAttempts [.telegram (.found h a n)] = 0 := by
  simp [openAttempts]

theorem openAttempts_single_openFile (ok : Bool) :
    openAttempts [.openFile ok] = 1 := by
  simp [openAttempts]

theorem openAttempts_single_writeString (l p : GoString) :
    openAttempts [.writeString l p] = 0 := by
  simp [openAttempts]

theorem successfulOpens_single_progress (c f : Int) :
    successfulOpens [.telegram (.progress c f)] = 0 := by
  simp [successfulOpens]

theorem successfulOpens_single_found (h a : GoString) (n : Int) :
    successfulOpens [.telegram (.found h a n)] = 0 := by
  simp [successfulOpens]

theorem successfulOpens_single_openTrue  :
    successfulOpens [.openFile true] = 1 := by
  simp [successfulOpens]

theorem successfulOpens_single_openFalse  :
    successfulOpens [.openFile false] = 0 := by
  simp [successfulOpens]

theorem successfulOpens_single_writeString (l p : GoString) :
    successfulOpens [.writeString l p] = 0 := by
  simp [successfulOpens]

theorem alerts_single_progress (c f : Int) :
    alerts [.telegram (.progress c f)] = [] := by
  simp [alerts]

theorem alerts_single_found (h a : GoString) (n : Int) :
    alerts [.telegram (.found h a n)] = [.found h a n] := by
  simp [alerts]

theorem alerts_single_openFile (ok : Bool) :
    alerts [.openFile ok] = [] := by
  simp [alerts]

theorem alerts_single_writeString (l p : GoString) :
    alerts [.writeString l p] = [] := by
  simp [alerts]

theorem writes_single_progress (c f : Int) :
    writes [.telegram (.progress c f)] = [] := by
  simp [writes]

theorem writes_single_found (h a : GoString) (n : Int) :
    writes [.telegram (.found h a n)] = [] := by
  simp [writes]

theorem writes_single_openFile (ok : Bool) :
    writes [.openFile ok] = [] := by
  simp [writes]

theorem writes_single_writeString (l p : GoString) :
    writes [.writeString l p] = [(l, p)] := by
  simp [writes]

/-- What one step does to the bookkeeping: `d` is 1 when the step is the lookup
of an address that is in the map, else 0. -/
theorem match_addressSearcherStep (cfg : Config) (ev : Event) (sh : Shared) (w : Worker) :
    openAttempts (addressSearcherStep cfg ev sh w).1.trace +
          awaitingOpen (addressSearcherStep cfg ev sh w).2 =
        openAttempts sh.trace + awaitingOpen w +
          (if w.pc = .check ∧ mapIndex cfg.fundedAddresses w.address = true then 1 else 0) ∧
      (alerts (addressSearcherStep cfg ev sh w).1.trace).length +
          awaitingAlert (addressSearcherStep cfg ev sh w).2 =
        (alerts sh.trace).length + awaitingAlert w +
          (if w.pc = .check ∧ mapIndex cfg.fundedAddresses w.address = true then 1 else 0) ∧
      (∀ x : Int, sh.foundCount = wrapInt64 (x - awaitingHit w) →
        (addressSearcherStep cfg ev sh w).1.foundCount =
          wrapInt64 (x + ((if w.pc = .check ∧ mapIndex cfg.fundedAddresses w.address = true
              then 1 else 0 : Nat) : Int) -
            awaitingHit (addressSearcherStep cfg ev sh w).2)) ∧
      successfulOpens (addressSearcherStep cfg ev sh w).1.trace +
          ((writes sh.trace).length + atWrite w) =
        successfulOpens sh.trace + ((writes (addressSearcherStep cfg ev sh w).1.trace).length +
          atWrite (addressSearcherStep cfg ev sh w).2) := by
  obtain ⟨pc, key, address, isFunded, cur, hex⟩ := w
  cases pc
  case generate =>
    cases hg : generateRandomPrivateKey ev.rand <;>
      simp [addressSearcherStep, hg, awaitingOpen, awaitingAlert, awaitingHit, atWrite]
  case check =>
    cases hf : mapIndex cfg.fundedAddresses address <;>
      simp [addressSearcherStep, hf, awaitingOpen, awaitingAlert, awaitingHit, atWrite]
  case progress =>
    by_cases hp : cur.tmod cfg.interval = 0 <;>
      simp [addressSearcherStep, hp, awaitingOpen, awaitingAlert, awaitingHit, atWrite,
        openAttempts_append, alerts_append, writes_append, successfulOpens_append,
        openAttempts_single_progress, alerts_single_progress, writes_single_progress,
        successfulOpens_single_progress]
  case hit =>
    cases isFunded
    · simp [addressSearcherStep, awaitingOpen, awaitingAlert, awaitingHit, atWrite]
    · refine ⟨?_, ?_, ?_, ?_⟩
      · simp [addressSearcherStep, awaitingOpen]
      · simp [addressSearcherStep, awaitingAlert]
      · intro x hx
        simp only [awaitingHit, if_true, Nat.cast_one] at hx
        simp only [addressSearcherStep, if_true, awaitingHit]
        rw [wrapInt64_congr_succ _ _ hx]
        congr 1
        simp
      · simp [addressSearcherStep, atWrite]
  case alert =>
    simp [addressSearcherStep, awaitingOpen, awaitingAlert, awaitingHit, atWrite,
      openAttempts_append, alerts_append, writes_append, successfulOpens_append,
      openAttempts_single_found, alerts_single_found, writes_single_found,
      successfulOpens_single_found]
  case lock =>
    cases hm : sh.mutex <;>
      simp [addressSearcherStep, hm, awaitingOpen, awaitingAlert, awaitingHit, atWrite]
  case openFile =>
    cases ho : ev.openOk <;>
      simp [addressSearcherStep, ho, awaitingOpen, awaitingAlert, awaitingHit, atWrite,
        openAttempts_append, alerts_append, writes_append, successfulOpens_append,
        openAttempts_single_openFile, alerts_single_openFile, writes_single_openFile,
        successfulOpens_single_openTrue, successfulOpens_single_openFalse]
    omega
  case write =>
    simp [addressSearcherStep, awaitingOpen, awaitingAlert, awaitingHit, atWrite,
      openAttempts_append, alerts_append, writes_append, successfulOpens_append,
      openAttempts_single_writeString, alerts_single_writeString, writes_single_writeString,
      successfulOpens_single_writeString]
  all_goals
    simp [addressSearcherStep, awaitingOpen, awaitingAlert, awaitingHit, atWrite,
      privateKeyToAddress_ok]

theorem memberStep_of_getElem (cfg : Config) (s : State) (ev : Event) (w : Worker)
    (hw : s.workers[ev.worker]? = some w) :
    memberStep cfg s ev =
      if w.pc = .check ∧ mapIndex cfg.fundedAddresses w.address = true then 1 else 0 := by
  simp [memberStep, hw]

theorem memberStep_of_none (cfg : Config) (s : State) (ev : Event)
    (hw : s.workers[ev.worker]? = none) : memberStep cfg s ev = 0 := by
  simp [memberStep, hw]

theorem MatchInv_step (cfg : Config) (s : State) (ev : Event) (m : Nat) (h : MatchInv s m) :
    MatchInv (step cfg s ev) (m + memberStep cfg s ev) := by
  unfold step
  cases hw : s.workers[ev.worker]? with
  | none =>
    rw [memberStep_of_none cfg s ev hw]
    exact h
  | some w =>
    rw [memberStep_of_getElem cfg s ev w hw]
    obtain ⟨h1, h2, h3, h4⟩ := h
    obtain ⟨g1, g2, g3, g4⟩ := match_addressSearcherStep cfg ev s.shared w
    have s1 := sum_map_set awaitingOpen s.workers ev.worker w
      (addressSearcherStep cfg ev s.shared w).2 hw
    have s2 := sum_map_set awaitingAlert s.workers ev.worker w
      (addressSearcherStep cfg ev s.shared w).2 hw
    have s3 := sum_map_set awaitingHit s.workers ev.worker w
      (addressSearcherStep cfg ev s.shared w).2 hw
    have s4 := sum_map_set atWrite s.workers ev.worker w
      (addressSearcherStep cfg ev s.shared w).2 hw
    have l3 := le_sum_map awaitingHit s.workers ev.worker w hw
    refine ⟨?_, ?_, ?_, ?_⟩
    · show _ = openAttempts (addressSearcherStep cfg ev s.shared w).1.trace +
        ((s.workers.set ev.worker (addressSearcherStep cfg ev s.shared w).2).map awaitingOpen).sum
      omega
    · show _ = (alerts (addressSearcherStep cfg ev s.shared w).1.trace).length +
        ((s.workers.set ev.worker (addressSearcherStep cfg ev s.shared w).2).map awaitingAlert).sum
      omega
    · show (addressSearcherStep cfg ev s.shared w).1.foundCount = wrapInt64 (_ -
        (((s.workers.set ev.worker (addressSearcherStep cfg ev s.shared w).2).map
          awaitingHit).sum : Nat))
      have hx := g3 ((m : Int) - (((s.workers.map awaitingHit).sum - awaitingHit w : Nat) : Int))
        (by rw [h3]; congr 1; omega)
      rw [hx]
      congr 1
      omega
    · show successfulOpens (addressSearcherStep cfg ev s.shared w).1.trace =
        (writes (addressSearcherStep cfg ev s.shared w).1.trace).length +
        ((s.workers.set ev.worker (addressSearcherStep cfg ev s.shared w).2).map atWrite).sum
      omega

theorem MatchInv_initState (numThreads : Nat) (file0 : GoString) :
    MatchInv (initState numThreads file0) 0 := by
  have hz : ∀ f : Worker → Nat, f newWorker = 0 →
      ((List.replicate numThreads newWorker).map f).sum = 0 := by
    intro f hf
    induction numThreads with
    | zero => rfl
    | succ k ih => simp [List.replicate_succ, hf, ih]
  have z1 := hz awaitingOpen rfl
  have z2 := hz awaitingAlert rfl
  have z3 := hz awaitingHit rfl
  have z4 := hz atWrite rfl
  refine ⟨?_, ?_, ?_, ?_⟩
  · show 0 = openAttempts [] + ((List.replicate numThreads newWorker).map awaitingOpen).sum
    rw [z1]
    rfl
  · show 0 = (alerts []).length + ((List.replicate numThreads newWorker).map awaitingAlert).sum
    rw [z2]
    rfl
  · show (0 : Int) = wrapInt64 (((0 : Nat) : Int) -
      (((List.replicate numThreads newWorker).map awaitingHit).sum : Nat))
    rw [z3]
    decide
  · show successfulOpens [] =
      (writes []).length + ((List.replicate numThreads newWorker).map atWrite).sum
    rw [z4]
    rfl

theorem MatchInv_run (cfg : Config) (numThreads : Nat) (file0 : GoString) (evs : List Event) :
    MatchInv (run cfg (initState numThreads file0) evs)
      (memberIterations cfg (initState numThreads file0) evs) := by
  have h := run_preserves_members cfg MatchInv (fun s ev n => MatchInv_step cfg s ev n)
    (initState numThreads file0) evs 0 (MatchInv_initState numThreads file0)
  rw [Nat.zero_add] at h
  exact h

/-! ## No match is held up for ever -/

theorem step_of_getElem (cfg : Config) (s : State) (ev : Event) (w : Worker)
    (hw : s.workers[ev.worker]? = some w) :
    step cfg s ev =
      { shared := (addressSearcherStep cfg ev s.shared w).1
        workers := s.workers.set ev.worker (addressSearcherStep cfg ev s.shared w).2 } := by
  simp [step, hw]

theorem getElem_step_self (cfg : Config) (s : State) (ev : Event) (w : Worker)
    (hw : s.workers[ev.worker]? = some w) :
    (step cfg s ev).workers[ev.worker]? = some (addressSearcherStep cfg ev s.shared w).2 := by
  rw [step_of_getElem cfg s ev w hw]
  have hlt : ev.worker < s.workers.length := by
    by_contra hge
    rw [List.getElem?_eq_none (by omega)] at hw
    exact Option.noConfusion hw
  exact List.getElem?_set_self hlt

theorem getElem_step_ne (cfg : Config) (s : State) (ev : Event) (k : Nat) (hk : ev.worker ≠ k) :
    (step cfg s ev).workers[k]? = s.workers[k]? := by
  unfold step
  cases hw : s.workers[ev.worker]? with
  | none => rfl
  | some w => exact List.getElem?_set_ne hk

theorem exists_of_sum_pos (f : Worker → Nat) (l : List Worker) (h : 0 < (l.map f).sum) :
    ∃ (j : Nat) (w : Worker), l[j]? = some w ∧ 0 < f w := by
  induction l with
  | nil => simp at h
  | cons a rest ih =>
    by_cases ha : 0 < f a
    · exact ⟨0, a, by simp, ha⟩
    · have hr : 0 < (rest.map f).sum := by
        simp only [List.map_cons, List.sum_cons] at h
        omega
      obtain ⟨j, w, hj, hw⟩ := ih hr
      exact ⟨j + 1, w, by simpa using hj, hw⟩

/-- The worker that moves, with answers of the environment that make every
call fail. -/
theorem advance_addressSearcherStep (cfg : Config) (ev : Event) (sh : Shared) (w : Worker)
    (ha : awaitingOpen w = 1) (hpc : w.pc ≠ .openFile) (hm : sh.mutex = false) :
    awaitingOpen (addressSearcherStep cfg ev sh w).2 = 1 ∧
      stepsToOpen (addressSearcherStep cfg ev sh w).2 + 1 = stepsToOpen w ∧
      ((addressSearcherStep cfg ev sh w).2.pc ≠ .openFile →
        (addressSearcherStep cfg ev sh w).1.mutex = false) ∧
      (addressSearcherStep cfg ev sh w).2.privateKey = w.privateKey ∧
      (addressSearcherStep cfg ev sh w).2.address = w.address := by
  obtain ⟨pc, key, address, isFunded, cur, hex⟩ := w
  cases pc
  case account =>
    cases isFunded <;> simp_all [addressSearcherStep, awaitingOpen, stepsToOpen]
  case progress =>
    cases isFunded <;> by_cases hp : cur.tmod cfg.interval = 0 <;>
      simp_all [addressSearcherStep, awaitingOpen, stepsToOpen]
  case hit =>
    cases isFunded <;> simp_all [addressSearcherStep, awaitingOpen, stepsToOpen]
  case alert => simp_all [addressSearcherStep, awaitingOpen, stepsToOpen]
  case lock => simp_all [addressSearcherStep, awaitingOpen, stepsToOpen]
  case openFile => exact absurd rfl hpc
  all_goals simp [awaitingOpen] at ha

theorem reach_open_free (cfg : Config) (d : Nat) :
    ∀ (s : State) (i : Nat) (w : Worker), s.workers[i]? = some w → awaitingOpen w = 1 →
      stepsToOpen w ≤ d → (w.pc ≠ .openFile → s.shared.mutex = false) →
      ∃ evs w2, (run cfg s evs).workers[i]? = some w2 ∧ w2.pc = .openFile ∧
        w2.privateKey = w.privateKey ∧ w2.address = w.address := by
  induction d with
  | zero =>
    intro s i w hw ha hd hm
    have hpc : w.pc = .openFile := by
      obtain ⟨pc, key, address, isFunded, cur, hex⟩ := w
      cases pc <;> simp_all [awaitingOpen, stepsToOpen]
    exact ⟨[], w, hw, hpc, rfl, rfl⟩
  | succ d ih =>
    intro s i w hw ha hd hm
    by_cases hpc : w.pc = .openFile
    · exact ⟨[], w, hw, hpc, rfl, rfl⟩
    · have hw2 : s.workers[(Event.mk i none false [] none).worker]? = some w := hw
      obtain ⟨g1, g2, g3, g4, g5⟩ :=
        advance_addressSearcherStep cfg (Event.mk i none false [] none) s.shared w ha hpc (hm hpc)
      have hself := getElem_step_self cfg s (Event.mk i none false [] none) w hw2
      have hsh : (step cfg s (Event.mk i none false [] none)).shared =
          (addressSearcherStep cfg (Event.mk i none false [] none) s.shared w).1 := by
        rw [step_of_getElem cfg s _ w hw2]
      obtain ⟨evs, w2, h1, h2, h3, h4⟩ := ih (step cfg s (Event.mk i none false [] none)) i _
        hself g1 (by omega) (by rw [hsh]; exact g3)
      exact ⟨Event.mk i none false [] none :: evs, w2, by rw [run_cons]; exact h1, h2,
        h3.trans g4, h4.trans g5⟩

theorem release_addressSearcherStep (cfg : Config) (j : Nat) (sh : Shared) (w : Worker)
    (hs : inSection w = 1) :
    (w.pc ≠ .write → (addressSearcherStep cfg (Event.mk j none false [] none) sh w).1.mutex = false) ∧
      (w.pc = .write →
        (addressSearcherStep cfg (Event.mk j none false [] none) sh w).2.pc = .unlock) := by
  obtain ⟨pc, key, address, isFunded, cur, hex⟩ := w
  cases pc <;> simp_all [addressSearcherStep, inSection]

theorem release_mutex (cfg : Config) (s : State)
    (hsec : sectionCount s.workers = if s.shared.mutex = true then 1 else 0) :
    ∃ evs, (run cfg s evs).shared.mutex = false ∧
      ∀ (k : Nat) (w : Worker), s.workers[k]? = some w → inSection w = 0 →
        (run cfg s evs).workers[k]? = some w := by
  cases hm : s.shared.mutex with
  | false => exact ⟨[], hm, fun k w hk _ => hk⟩
  | true =>
    rw [hm] at hsec
    simp only [if_true] at hsec
    obtain ⟨j, wj, hj, hpos⟩ := exists_of_sum_pos inSection s.workers
      (by unfold sectionCount at hsec; omega)
    have hin : inSection wj = 1 := by
      obtain ⟨pc, key, address, isFunded, cur, hex⟩ := wj
      cases pc <;> simp_all [inSection]
    have hne : ∀ k w, s.workers[k]? = some w → inSection w = 0 → j ≠ k := by
      intro k w hk hz hjk
      subst hjk
      rw [hj] at hk
      cases hk
      omega
    have hj2 : s.workers[(Event.mk j none false [] none).worker]? = some wj := hj
    obtain ⟨r1, r2⟩ := release_addressSearcherStep cfg j s.shared wj hin
    by_cases hpc : wj.pc = .write
    · have hself := getElem_step_self cfg s (Event.mk j none false [] none) wj hj2
      have hin2 : inSection (addressSearcherStep cfg (Event.mk j none false [] none) s.shared
          wj).2 = 1 := by
        simp [inSection, r2 hpc]
      obtain ⟨q1, _⟩ := release_addressSearcherStep cfg j
        (step cfg s (Event.mk j none false [] none)).shared _ hin2
      refine ⟨[Event.mk j none false [] none, Event.mk j none false [] none], ?_, ?_⟩
      · rw [run_cons, run_cons, run_nil, step_of_getElem cfg _ _ _ hself]
        exact q1 (by rw [r2 hpc]; decide)
      · intro k w hk hz
        rw [run_cons, run_cons, run_nil, getElem_step_ne cfg _ _ k (hne k w hk hz),
          getElem_step_ne cfg _ _ k (hne k w hk hz)]
        exact hk
    · refine ⟨[Event.mk j none false [] none], ?_, ?_⟩
      · rw [run_cons, run_nil, step_of_getElem cfg s _ wj hj2]
        exact r1 hpc
      · intro k w hk hz
        rw [run_cons, run_nil, getElem_step_ne cfg _ _ k (hne k w hk hz)]
        exact hk

/-- From every state of a run, a worker whose address was found in the map can
be brought to its `os.OpenFile` call: the mutex is released after at most two
steps of its holder, and then five steps of the worker suffice.  The worker
keeps its key and its address on the way. -/
theorem can_reach_open (cfg : Config) (numThreads : Nat) (file0 : GoString) (evs : List Event)
    (i : Nat) (w : Worker)
    (hw : (run cfg (initState numThreads file0) evs).workers[i]? = some w)
    (ha : awaitingOpen w = 1) :
    ∃ evs2 w2, (run cfg (initState numThreads file0) (evs ++ evs2)).workers[i]? = some w2 ∧
      w2.pc = .openFile ∧ w2.privateKey = w.privateKey ∧ w2.address = w.address := by
  by_cases hpc : w.pc = .openFile
  · exact ⟨[], w, by rw [List.append_nil]; exact hw, hpc, rfl, rfl⟩
  · have hz : inSection w = 0 := by
      obtain ⟨pc, key, address, isFunded, cur, hex⟩ := w
      cases pc <;> simp_all [inSection, awaitingOpen]
    obtain ⟨_, hsec, _⟩ := RecorderInv_run cfg numThreads file0 evs
    obtain ⟨e1, hfree, hkeep⟩ := release_mutex cfg _ hsec
    obtain ⟨e2, w2, h1, h2, h3, h4⟩ := reach_open_free cfg (stepsToOpen w) _ i w
      (hkeep i w hw hz) ha (le_refl _) (fun _ => hfree)
    refine ⟨e1 ++ e2, w2, ?_, h2, h3, h4⟩
    rw [← List.append_assoc, run_append, run_append]
    exact h1

/-! ## Matches and the match log -/

theorem alerts_addressSearcherStep (cfg : Config) (ev : Event) (sh : Shared) (w : Worker)
    (h : WorkerOK cfg w) :
    ∃ new : List Message,
      alerts (addressSearcherStep cfg ev sh w).1.trace = alerts sh.trace ++ new ∧
      ∀ m ∈ new, IsAlert cfg m := by
  obtain ⟨pc, key, address, isFunded, cur, hex⟩ := w
  cases pc
  case alert =>
    simp only [WorkerOK] at h
    obtain ⟨h1, h2⟩ := h
    refine ⟨[.found (EncodeToString key) address sh.foundCount], ?_, ?_⟩
    · simp [addressSearcherStep, alerts_append, alerts_single_found]
    · intro m hm
      rw [List.mem_singleton] at hm
      subst hm
      exact ⟨key, sh.foundCount, by rw [h1], by rw [← h1]; exact h2⟩
  case generate =>
    refine ⟨[], ?_, ?_⟩ <;>
      cases hg : generateRandomPrivateKey ev.rand <;> simp [addressSearcherStep, hg]
  case progress =>
    refine ⟨[], ?_, ?_⟩ <;> by_cases hp : cur.tmod cfg.interval = 0 <;>
      simp [addressSearcherStep, hp, alerts_append, alerts_single_progress]
  case hit => refine ⟨[], ?_, ?_⟩ <;> cases isFunded <;> simp [addressSearcherStep]
  case lock => refine ⟨[], ?_, ?_⟩ <;> cases hm : sh.mutex <;> simp [addressSearcherStep, hm]
  case openFile =>
    refine ⟨[], ?_, ?_⟩ <;> cases ho : ev.openOk <;>
      simp [addressSearcherStep, ho, alerts_append, alerts_single_openFile]
  case write =>
    refine ⟨[], ?_, ?_⟩ <;>
      simp [addressSearcherStep, alerts_append, alerts_single_writeString]
  all_goals
    refine ⟨[], ?_, ?_⟩ <;> simp [addressSearcherStep, privateKeyToAddress_ok]

theorem AlertInv_step (cfg : Config) (s : State) (ev : Event) (h : AlertInv cfg s) :
    AlertInv cfg (step cfg s ev) := by
  unfold step
  cases hw : s.workers[ev.worker]? with
  | none => exact h
  | some w =>
    obtain ⟨hok, hal⟩ := h
    have hwok := hok w (List.getElem?_mem hw)
    obtain ⟨new, hn1, hn2⟩ := alerts_addressSearcherStep cfg ev s.shared w hwok
    refine ⟨?_, ?_⟩
    · intro v hv
      rcases List.mem_or_eq_of_mem_set hv with h1 | h1
      · exact hok v h1
      · rw [h1]
        exact WorkerOK_addressSearcherStep cfg ev s.shared w hwok
    · show ∀ m ∈ alerts (addressSearcherStep cfg ev s.shared w).1.trace, IsAlert cfg m
      intro m hm
      rw [hn1, List.mem_append] at hm
      rcases hm with h1 | h1
      · exact hal m h1
      · exact hn2 m h1

theorem AlertInv_run (cfg : Config) (numThreads : Nat) (file0 : GoString) (evs : List Event) :
    AlertInv cfg (run cfg (initState numThreads file0) evs) := by
  apply run_preserves cfg (AlertInv cfg) (AlertInv_step cfg)
  refine ⟨?_, ?_⟩
  · intro w hw
    rw [List.eq_of_mem_replicate hw]
    exact WorkerOK_newWorker cfg
  · simp [initState, alerts]

/-- C4.  An uninterrupted iteration that starts at the top of the loop with the
recorder mutex free and in which key generation succeeds: derivation succeeds,
the iteration ends at the top of the loop, and it registers a match (it
increments `foundCount`, sends one match alert and calls `os.OpenFile` once)
exactly when the derived address is in the map; otherwise the counter, the
alerts, the file and the writes are untouched.

Under every interleaving of any number of workers: the iterations whose address
was found in the map are as many as the `os.OpenFile` calls plus the workers
still on their way to that call, as many as the match alerts plus the workers
that have not sent theirs yet, and `foundCount` is their number less the workers
that have not incremented it yet (wrapped to 64 bits); a worker on its way can
always be brought to its `os.OpenFile` call, which it then makes whatever the
state; every alert sent and every string handed to `file.WriteString` is that
of a key whose address is in the map.  With an empty map, in every run
`foundCount` stays 0, the file keeps its initial contents and nothing is
written or alerted. -/
theorem match_iff_member (cfg : Config) :
    (∀ (ev : Event) (sh : Shared) (w : Worker) (key : Bytes),
      w.pc = .generate → sh.mutex = false → generateRandomPrivateKey ev.rand = .ok key →
        privateKeyToAddress cfg.prims key = .ok (derivedAddress cfg.prims key) ∧
        (addressSearcherIteration cfg ev sh w).2.pc = .generate ∧
        (registersMatch sh (addressSearcherIteration cfg ev sh w).1 ↔
          mapIndex cfg.fundedAddresses (derivedAddress cfg.prims key) = true) ∧
        (registersNothing sh (addressSearcherIteration cfg ev sh w).1 ↔
          mapIndex cfg.fundedAddresses (derivedAddress cfg.prims key) = false)) ∧
      (∀ (numThreads : Nat) (file0 : GoString) (evs : List Event),
        memberIterations cfg (initState numThreads file0) evs =
          openAttempts (run cfg (initState numThreads file0) evs).shared.trace +
            ((run cfg (initState numThreads file0) evs).workers.map awaitingOpen).sum ∧
        memberIterations cfg (initState numThreads file0) evs =
          (alerts (run cfg (initState numThreads file0) evs).shared.trace).length +
            ((run cfg (initState numThreads file0) evs).workers.map awaitingAlert).sum ∧
        (run cfg (initState numThreads file0) evs).shared.foundCount =
          wrapInt64 ((memberIterations cfg (initState numThreads file0) evs : Int) -
            (((run cfg (initState numThreads file0) evs).workers.map awaitingHit).sum : Nat))) ∧
      (∀ (numThreads : Nat) (file0 : GoString) (evs : List Event) (i : Nat) (w : Worker),
        (run cfg (initState numThreads file0) evs).workers[i]? = some w → awaitingOpen w = 1 →
          ∃ evs2 w2,
            (run cfg (initState numThreads file0) (evs ++ evs2)).workers[i]? = some w2 ∧
            w2.pc = .openFile ∧ w2.privateKey = w.privateKey ∧ w2.address = w.address) ∧
      (∀ (ev : Event) (sh : Shared) (w : Worker), w.pc = .openFile →
        openAttempts (addressSearcherStep cfg ev sh w).1.trace = openAttempts sh.trace + 1) ∧
      (∀ (numThreads : Nat) (file0 : GoString) (evs : List Event),
        (∀ m ∈ alerts (run cfg (initState numThreads file0) evs).shared.trace, IsAlert cfg m) ∧
        ∀ l ∈ written (run cfg (initState numThreads file0) evs).shared.trace,
          IsRecord cfg l) ∧
      (cfg.fundedAddresses = [] →
        ∀ (numThreads : Nat) (file0 : GoString) (evs : List Event),
          (run cfg (initState numThreads file0) evs).shared.foundCount = 0 ∧
          (run cfg (initState numThreads file0) evs).shared.file = file0 ∧
          written (run cfg (initState numThreads file0) evs).shared.trace = [] ∧
          alerts (run cfg (initState numThreads file0) evs).shared.trace = []) := by
  have hprog : ∀ c f, alerts (progressEffect cfg c f) = [] ∧
      openAttempts (progressEffect cfg c f) = 0 ∧ written (progressEffect cfg c f) = [] := by
    intro c f
    unfold progressEffect
    split <;> simp [alerts, openAttempts, written]
  refine ⟨?_, ?_, ?_, ?_, ?_, ?_⟩
  · intro ev sh w key hpc hm hr
    refine ⟨rfl, ?_, ?_, ?_⟩
    · cases hf : mapIndex cfg.fundedAddresses (derivedAddress cfg.prims key)
      · rw [addressSearcherIteration_miss cfg ev sh w key hpc hr hf]
      · cases ho : ev.openOk
        · rw [addressSearcherIteration_hit_open_failed cfg ev sh w key hpc hr hf hm ho]
        · rw [addressSearcherIteration_hit cfg ev sh w key hpc hr hf hm ho]
    · cases hf : mapIndex cfg.fundedAddresses (derivedAddress cfg.prims key)
      · rw [addressSearcherIteration_miss cfg ev sh w key hpc hr hf]
        simp [registersMatch, alerts_append, (hprog _ _).1]
      · cases ho : ev.openOk
        · rw [addressSearcherIteration_hit_open_failed cfg ev sh w key hpc hr hf hm ho]
          simp only [registersMatch, alerts_append, openAttempts_append, (hprog _ _).1,
            (hprog _ _).2.1]
          simp [alerts, openAttempts]
        · rw [addressSearcherIteration_hit cfg ev sh w key hpc hr hf hm ho]
          simp only [registersMatch, alerts_append, openAttempts_append, (hprog _ _).1,
            (hprog _ _).2.1]
          simp [alerts, openAttempts]
    · cases hf : mapIndex cfg.fundedAddresses (derivedAddress cfg.prims key)
      · rw [addressSearcherIteration_miss cfg ev sh w key hpc hr hf]
        simp [registersNothing, alerts_append, openAttempts_append, written_append,
          (hprog _ _).1, (hprog _ _).2.1, (hprog _ _).2.2]
      · cases ho : ev.openOk
        · rw [addressSearcherIteration_hit_open_failed cfg ev sh w key hpc hr hf hm ho]
          simp [registersNothing, wrapInt64_succ_ne]
        · rw [addressSearcherIteration_hit cfg ev sh w key hpc hr hf hm ho]
          simp [registersNothing, wrapInt64_succ_ne]
  · intro numThreads file0 evs
    obtain ⟨h1, h2, h3, _⟩ := MatchInv_run cfg numThreads file0 evs
    exact ⟨h1, h2, h3⟩
  · intro numThreads file0 evs i w hw ha
    exact can_reach_open cfg numThreads file0 evs i w hw ha
  · intro ev sh w hpc
    cases ho : ev.openOk <;>
      simp [addressSearcherStep, hpc, ho, openAttempts_append, openAttempts_single_openFile]
  · intro numThreads file0 evs
    exact ⟨(AlertInv_run cfg numThreads file0 evs).2,
      (RecorderInv_run cfg numThreads file0 evs).2.2.2.1⟩
  · intro hcfg numThreads file0 evs
    obtain ⟨_, h2, h3, h4, h5, _⟩ := NoMatchInv_run cfg hcfg numThreads file0 evs
    exact ⟨h2, h3, h4, h5⟩

/-- Witness for C4: the iteration of a fresh worker that generates `toyKey`,
whose address is in the loaded map; a run of two workers in which one worker
has looked its address up and found it; a run against the empty map. -/
theorem match_iff_member_witness :
    registersMatch (initState 1 []).shared
        (addressSearcherIteration toyConfig toyEvent (initState 1 []).shared newWorker).1 ∧
      memberIterations toyConfig (initState 2 []) (List.replicate 5 toyEvent) = 1 ∧
      openAttempts (run toyConfig (initState 2 []) (List.replicate 5 toyEvent)).shared.trace +
        ((run toyConfig (initState 2 []) (List.replicate 5 toyEvent)).workers.map
          awaitingOpen).sum = 1 ∧
      (run emptyConfig (initState 2 []) [toyEvent, toyEvent, toyEvent]).shared.foundCount = 0 := by
  have h := match_iff_member toyConfig
  have h2 := match_iff_member emptyConfig
  have hm : memberIterations toyConfig (initState 2 []) (List.replicate 5 toyEvent) = 1 := by
    decide
  refine ⟨((h.1 toyEvent (initState 1 []).shared newWorker toyKey rfl rfl rfl).2.2.1).mpr
    (by decide), hm, ?_, (h2.2.2.2.2.2 rfl 2 [] [toyEvent, toyEvent, toyEvent]).1⟩
  rw [← (h.2.1 2 [] (List.replicate 5 toyEvent)).1, hm]

theorem matchLine_getLast (ts hex address : GoString) :
    (matchLine ts hex address).getLast? = some '\n' := by
  unfold matchLine
  exact List.getLast?_concat _

theorem file_addressSearcherStep (cfg : Config) (ev : Event) (sh : Shared) (w : Worker) :
    (w.pc = .write →
        (addressSearcherStep cfg ev sh w).1.file =
          sh.file ++ storedPart ev.wrote (matchLine ev.now w.privateKeyHex w.address) ∧
        (addressSearcherStep cfg ev sh w).1.trace =
          sh.trace ++ [.writeString (matchLine ev.now w.privateKeyHex w.address)
            (storedPart ev.wrote (matchLine ev.now w.privateKeyHex w.address))]) ∧
      (w.pc ≠ .write → (addressSearcherStep cfg ev sh w).1.file = sh.file) := by
  obtain ⟨pc, key, address, isFunded, cur, hex⟩ := w
  cases pc
  case generate => cases hg : generateRandomPrivateKey ev.rand <;> simp [addressSearcherStep, hg]
  case progress =>
    by_cases hp : cur.tmod cfg.interval = 0 <;> simp [addressSearcherStep, hp]
  case hit => cases isFunded <;> simp [addressSearcherStep]
  case lock => cases hm : sh.mutex <;> simp [addressSearcherStep, hm]
  case openFile => cases ho : ev.openOk <;> simp [addressSearcherStep, ho]
  all_goals simp [addressSearcherStep, privateKeyToAddress_ok]

/-- C5, as stated, fails when the write fails: the uninterrupted iteration of a
fresh worker that generates `toyKey`, whose address is in the map, on a full
disk.  `os.OpenFile` succeeds, `file.WriteString` is called with the record and
fails at once, and the file is as empty as before: no line is appended. -/
theorem open_succeeds_nothing_appended :
    mapIndex toyConfig.fundedAddresses (derivedAddress toyPrims toyKey) = true ∧
      generateRandomPrivateKey fullDiskEvent.rand = .ok toyKey ∧
      successfulOpens (addressSearcherIteration toyConfig fullDiskEvent
        (initState 1 []).shared newWorker).1.trace = 1 ∧
      (writes (addressSearcherIteration toyConfig fullDiskEvent
        (initState 1 []).shared newWorker).1.trace).length = 1 ∧
      (addressSearcherIteration toyConfig fullDiskEvent
        (initState 1 []).shared newWorker).1.file = [] ∧
      (run toyConfig (initState 1 []) (List.replicate 12 fullDiskEvent)).shared.file = [] := by
  refine ⟨by decide, rfl, by decide, by decide, by decide, by decide⟩

/-- C5, amended.  For a 32-byte secret `s` whose derived address is in the map,
the uninterrupted iteration that generates `s`, opens the output file
successfully and whose write succeeds (started at the top of the loop, the
recorder mutex free) ends at the top of the loop and appends exactly one record
to the file, after the old contents.  The record is the line of `s`: it contains
the address and the hex encoding of `s`, it ends the line it is on, and decoding
the recorded hex string gives `s` back.

Under every interleaving of any number of workers: a worker that is about to
write holds a key whose address is in the map, and its step appends, after the
contents the file has at that moment, the stored part of the line of that key
(the whole line if the write succeeds); no other step changes the file; and the
successful `os.OpenFile` calls are as many as the `file.WriteString` calls plus
the workers about to write, one write for each.  The key a worker holds is the
one its last `generateRandomPrivateKey` returned. -/
theorem known_secret_recorded (cfg : Config) :
    (∀ (ev : Event) (sh : Shared) (w : Worker) (s : Bytes),
      s.length = 32 → w.pc = .generate → sh.mutex = false → ev.rand = some s →
      ev.openOk = true → ev.wrote = none →
      mapIndex cfg.fundedAddresses (derivedAddress cfg.prims s) = true →
        privateKeyToAddress cfg.prims s = .ok (derivedAddress cfg.prims s) ∧
        (addressSearcherIteration cfg ev sh w).2.pc = .generate ∧
        (addressSearcherIteration cfg ev sh w).1.file =
          sh.file ++ matchLine ev.now (EncodeToString s) (derivedAddress cfg.prims s) ∧
        written (addressSearcherIteration cfg ev sh w).1.trace =
          written sh.trace ++
            [matchLine ev.now (EncodeToString s) (derivedAddress cfg.prims s)]) ∧
      (∀ (ts : GoString) (s : Bytes),
        derivedAddress cfg.prims s <:+:
          matchLine ts (EncodeToString s) (derivedAddress cfg.prims s) ∧
        EncodeToString s <:+: matchLine ts (EncodeToString s) (derivedAddress cfg.prims s) ∧
        (matchLine ts (EncodeToString s) (derivedAddress cfg.prims s)).getLast? = some '\n' ∧
        DecodeString (EncodeToString s) = some s) ∧
      (∀ (numThreads : Nat) (file0 : GoString) (evs : List Event) (ev : Event) (w : Worker),
        (run cfg (initState numThreads file0) evs).workers[ev.worker]? = some w →
        w.pc = .write →
          mapIndex cfg.fundedAddresses (derivedAddress cfg.prims w.privateKey) = true ∧
          (run cfg (initState numThreads file0) (evs ++ [ev])).shared.file =
            (run cfg (initState numThreads file0) evs).shared.file ++
              storedPart ev.wrote (matchLine ev.now (EncodeToString w.privateKey)
                (derivedAddress cfg.prims w.privateKey)) ∧
          (ev.wrote = none →
            (run cfg (initState numThreads file0) (evs ++ [ev])).shared.file =
              (run cfg (initState numThreads file0) evs).shared.file ++
                matchLine ev.now (EncodeToString w.privateKey)
                  (derivedAddress cfg.prims w.privateKey))) ∧
      (∀ (numThreads : Nat) (file0 : GoString) (evs : List Event) (ev : Event) (w : Worker),
        (run cfg (initState numThreads file0) evs).workers[ev.worker]? = some w →
        w.pc ≠ .write →
          (run cfg (initState numThreads file0) (evs ++ [ev])).shared.file =
            (run cfg (initState numThreads file0) evs).shared.file) ∧
      (∀ (numThreads : Nat) (file0 : GoString) (evs : List Event),
        successfulOpens (run cfg (initState numThreads file0) evs).shared.trace =
          (writes (run cfg (initState numThreads file0) evs).shared.trace).length +
            ((run cfg (initState numThreads file0) evs).workers.map atWrite).sum) ∧
      (∀ (ev : Event) (sh : Shared) (w : Worker),
        (w.pc ≠ .generate → (addressSearcherStep cfg ev sh w).2.privateKey = w.privateKey) ∧
        ∀ key, w.pc = .generate → generateRandomPrivateKey ev.rand = .ok key →
          (addressSearcherStep cfg ev sh w).2.privateKey = key) := by
  have hrun : ∀ (numThreads : Nat) (file0 : GoString) (evs : List Event) (ev : Event)
      (w : Worker), (run cfg (initState numThreads file0) evs).workers[ev.worker]? = some w →
      (run cfg (initState numThreads file0) (evs ++ [ev])).shared =
        (addressSearcherStep cfg ev (run cfg (initState numThreads file0) evs).shared w).1 := by
    intro numThreads file0 evs ev w hw
    rw [run_append, run_cons, run_nil, step_of_getElem cfg _ ev w hw]
  refine ⟨?_, ?_, ?_, ?_, ?_, ?_⟩
  · intro ev sh w s hlen hpc hm hr ho hwr hf
    have hg : generateRandomPrivateKey ev.rand = .ok s := by
      rw [hr]
      exact generateRandomPrivateKey_length s hlen
    have hprog : ∀ c f, written (progressEffect cfg c f) = [] := by
      intro c f
      unfold progressEffect
      split <;> simp [written]
    rw [addressSearcherIteration_hit cfg ev sh w s hpc hg hf hm ho, hwr]
    refine ⟨rfl, rfl, rfl, ?_⟩
    simp only [written_append, hprog]
    simp [written]
  · intro ts s
    have hinf := matchLine_infix ts (EncodeToString s) (derivedAddress cfg.prims s)
    exact ⟨hinf.2.2, hinf.2.1, matchLine_getLast _ _ _, DecodeString_EncodeToString s⟩
  · intro numThreads file0 evs ev w hw hpc
    have hok := (RecorderInv_run cfg numThreads file0 evs).1 w (List.getElem?_mem hw)
    unfold WorkerOK at hok
    rw [hpc] at hok
    obtain ⟨h1, h2, h3⟩ := hok
    have hfile := ((file_addressSearcherStep cfg ev
      (run cfg (initState numThreads file0) evs).shared w).1 hpc).1
    rw [h3, h1] at hfile
    rw [h1] at h2
    refine ⟨h2, ?_, ?_⟩
    · rw [hrun numThreads file0 evs ev w hw]
      exact hfile
    · intro hwr
      rw [hrun numThreads file0 evs ev w hw, hfile, hwr]
      rfl
  · intro numThreads file0 evs ev w hw hpc
    rw [hrun numThreads file0 evs ev w hw]
    exact (file_addressSearcherStep cfg ev _ w).2 hpc
  · intro numThreads file0 evs
    exact (MatchInv_run cfg numThreads file0 evs).2.2.2
  · intro ev sh w
    obtain ⟨pc, key, address, isFunded, cur, hex⟩ := w
    cases pc
    case generate =>
      refine ⟨fun h => absurd rfl h, ?_⟩
      intro k _ hk
      simp [addressSearcherStep, hk]
    case progress =>
      by_cases hp : cur.tmod cfg.interval = 0 <;> simp [addressSearcherStep, hp]
    case hit => cases isFunded <;> simp [addressSearcherStep]
    case lock => cases hm : sh.mutex <;> simp [addressSearcherStep, hm]
    case openFile => cases ho : ev.openOk <;> simp [addressSearcherStep, ho]
    all_goals simp [addressSearcherStep, privateKeyToAddress_ok]

/-- Witness for C5 (amended): the fixed secret `toyKey`, whose address is the
one entry of the loaded map, alone and in a run with a second worker. -/
theorem known_secret_recorded_witness :
    (addressSearcherIteration toyConfig toyEvent (initState 1 []).shared newWorker).1.file =
        matchLine toyEvent.now (EncodeToString toyKey) (derivedAddress toyPrims toyKey) ∧
      (run toyConfig (initState 2 []) (List.replicate 9 toyEvent ++ [toyEvent])).shared.file =
        (run toyConfig (initState 2 []) (List.replicate 9 toyEvent)).shared.file ++
          matchLine toyEvent.now (EncodeToString toyKey) (derivedAddress toyPrims toyKey) ∧
      DecodeString (EncodeToString toyKey) = some toyKey := by
  have h := known_secret_recorded toyConfig
  have hw : (run toyConfig (initState 2 []) (List.replicate 9 toyEvent)).workers[
      toyEvent.worker]? = some ⟨.write, toyKey, derivedAddress toyPrims toyKey, true, 1,
        EncodeToString toyKey⟩ := by decide
  exact ⟨(h.1 toyEvent (initState 1 []).shared newWorker toyKey (by decide) rfl rfl rfl rfl rfl
      (by decide)).2.2.1,
    (h.2.2.1 2 [] (List.replicate 9 toyEvent) toyEvent _ hw rfl).2.2 rfl,
    (h.2.1 [] toyKey).2.2.2⟩

theorem written_step (cfg : Config) (ev : Event) (sh : Shared) (w : Worker) :
    (w.pc = .write →
        written (addressSearcherStep cfg ev sh w).1.trace =
          written sh.trace ++ [matchLine ev.now w.privateKeyHex w.address]) ∧
      (w.pc ≠ .write → written (addressSearcherStep cfg ev sh w).1.trace = written sh.trace) := by
  obtain ⟨pc, key, address, isFunded, cur, hex⟩ := w
  cases pc
  case generate => cases hg : generateRandomPrivateKey ev.rand <;> simp [addressSearcherStep, hg]
  case progress =>
    by_cases hp : cur.tmod cfg.interval = 0 <;>
      simp [addressSearcherStep, hp, written_append, written]
  case hit => cases isFunded <;> simp [addressSearcherStep]
  case alert => simp [addressSearcherStep, written_append, written]
  case lock => cases hm : sh.mutex <;> simp [addressSearcherStep, hm]
  case openFile =>
    cases ho : ev.openOk <;> simp [addressSearcherStep, ho, written_append, written]
  case write => simp [addressSearcherStep, written_append, written]
  all_goals simp [addressSearcherStep, privateKeyToAddress_ok]

/-- C6, as stated, fails: two runs of one worker against a map with two
addresses.  In the first the worker finds the address of `toyKey` at once; in
the second it first finds the address of `otherKey` and cannot open the file.
Both runs hand the same line to `file.WriteString`, while `foundCount` is 1 at
the time of the write in the first and 2 in the second: the line does not tell
the count.  And in a run in which the tenth match is the first one written,
with a key and a time stamp that hold no `10`, the decimal text of the count
does not occur in the line at all (no address can bring in a `0`: base 58 has
none). -/
theorem same_line_for_two_counts :
    written (run twoConfig (initState 1 []) (List.replicate 10 toyEvent)).shared.trace =
        ["[2006-02-03 04:05:06] FOUND! PrivateKey: 0000000000000000000000000000000000000000000000000000000000000000 Address: 0020070707070707\n".toList] ∧
      (run twoConfig (initState 1 []) (List.replicate 10 toyEvent)).shared.foundCount = 1 ∧
      written (run twoConfig (initState 1 [])
        (List.replicate 9 lostEvent ++ List.replicate 10 toyEvent)).shared.trace =
        ["[2006-02-03 04:05:06] FOUND! PrivateKey: 0000000000000000000000000000000000000000000000000000000000000000 Address: 0020070707070707\n".toList] ∧
      (run twoConfig (initState 1 [])
        (List.replicate 9 lostEvent ++ List.replicate 10 toyEvent)).shared.foundCount = 2 ∧
      (run ffConfig (initState 1 [])
        (List.replicate 81 ffLostEvent ++ List.replicate 10 ffEvent)).shared.foundCount = 10 ∧
      written (run ffConfig (initState 1 [])
        (List.replicate 81 ffLostEvent ++ List.replicate 10 ffEvent)).shared.trace =
        ["[2006-02-03 04:05:06] FOUND! PrivateKey: ffffffffffffffffffffffffffffffffffffffffffffffffffffffffffffffff Address: 00e01f2007070707\n".toList] ∧
      ¬ (formatInt 10 <:+:
        "[2006-02-03 04:05:06] FOUND! PrivateKey: ffffffffffffffffffffffffffffffffffffffffffffffffffffffffffffffff Address: 00e01f2007070707\n".toList) := by
  refine ⟨?_, by decide, ?_, by decide, ?_, ?_, ?_⟩
  · set_option maxRecDepth 8000 in decide
  · set_option maxRecDepth 8000 in decide
  · set_option maxRecDepth 20000 in decide
  · set_option maxRecDepth 20000 in decide
  · set_option maxRecDepth 100000 in decide

/-- C6, amended.  Under every interleaving of any number of workers, the step
of a worker that is about to write hands to `file.WriteString` one line made of
three fields in a fixed frame: the time stamp taken at that step, the hex
encoding of the worker's key and the address derived from that key.  Each of the
three occurs in the line, the line ends with a newline, and it is the same
whatever the shared state (the counters included) is at that step; no other
step hands anything to `file.WriteString`.  The value of `foundCount` goes into
the match alert and into the progress message instead. -/
theorem match_line_fields (cfg : Config) :
    (∀ (numThreads : Nat) (file0 : GoString) (evs : List Event) (ev : Event) (w : Worker),
      (run cfg (initState numThreads file0) evs).workers[ev.worker]? = some w →
      w.pc = .write →
        written (run cfg (initState numThreads file0) (evs ++ [ev])).shared.trace =
          written (run cfg (initState numThreads file0) evs).shared.trace ++
            ["[".toList ++ ev.now ++ "] FOUND! PrivateKey: ".toList ++
              EncodeToString w.privateKey ++ " Address: ".toList ++
              derivedAddress cfg.prims w.privateKey ++ "\n".toList]) ∧
      (∀ (numThreads : Nat) (file0 : GoString) (evs : List Event) (ev : Event) (w : Worker),
        (run cfg (initState numThreads file0) evs).workers[ev.worker]? = some w →
        w.pc ≠ .write →
          written (run cfg (initState numThreads file0) (evs ++ [ev])).shared.trace =
            written (run cfg (initState numThreads file0) evs).shared.trace) ∧
      (∀ (ts : GoString) (key : Bytes),
        ts <:+: "[".toList ++ ts ++ "] FOUND! PrivateKey: ".toList ++ EncodeToString key ++
          " Address: ".toList ++ derivedAddress cfg.prims key ++ "\n".toList ∧
        EncodeToString key <:+: "[".toList ++ ts ++ "] FOUND! PrivateKey: ".toList ++
          EncodeToString key ++ " Address: ".toList ++ derivedAddress cfg.prims key ++
          "\n".toList ∧
        derivedAddress cfg.prims key <:+: "[".toList ++ ts ++ "] FOUND! PrivateKey: ".toList ++
          EncodeToString key ++ " Address: ".toList ++ derivedAddress cfg.prims key ++
          "\n".toList ∧
        ("[".toList ++ ts ++ "] FOUND! PrivateKey: ".toList ++ EncodeToString key ++
          " Address: ".toList ++ derivedAddress cfg.prims key ++ "\n".toList).getLast? =
            some '\n') ∧
      (∀ (ev : Event) (sh1 sh2 : Shared) (w : Worker), w.pc = .write →
        ∃ line, written (addressSearcherStep cfg ev sh1 w).1.trace = written sh1.trace ++ [line] ∧
          written (addressSearcherStep cfg ev sh2 w).1.trace = written sh2.trace ++ [line]) ∧
      (∀ (ev : Event) (sh : Shared) (w : Worker), w.pc = .alert →
        (addressSearcherStep cfg ev sh w).1.trace =
          sh.trace ++ [.telegram (.found (EncodeToString w.privateKey) w.address
            sh.foundCount)]) ∧
      (∀ (ev : Event) (sh : Shared) (w : Worker), w.pc = .progress →
        (addressSearcherStep cfg ev sh w).1.trace =
          sh.trace ++ progressEffect cfg w.currentChecked sh.foundCount) := by
  have hrun : ∀ (numThreads : Nat) (file0 : GoString) (evs : List Event) (ev : Event)
      (w : Worker), (run cfg (initState numThreads file0) evs).workers[ev.worker]? = some w →
      (run cfg (initState numThreads file0) (evs ++ [ev])).shared =
        (addressSearcherStep cfg ev (run cfg (initState numThreads file0) evs).shared w).1 := by
    intro numThreads file0 evs ev w hw
    rw [run_append, run_cons, run_nil, step_of_getElem cfg _ ev w hw]
  refine ⟨?_, ?_, ?_, ?_, ?_, ?_⟩
  · intro numThreads file0 evs ev w hw hpc
    have hok := (RecorderInv_run cfg numThreads file0 evs).1 w (List.getElem?_mem hw)
    unfold WorkerOK at hok
    rw [hpc] at hok
    obtain ⟨h1, h2, h3⟩ := hok
    rw [hrun numThreads file0 evs ev w hw, (written_step cfg ev _ w).1 hpc, h3, h1]
    rfl
  · intro numThreads file0 evs ev w hw hpc
    rw [hrun numThreads file0 evs ev w hw]
    exact (written_step cfg ev _ w).2 hpc
  · intro ts key
    have hinf := matchLine_infix ts (EncodeToString key) (derivedAddress cfg.prims key)
    exact ⟨hinf.1, hinf.2.1, hinf.2.2, matchLine_getLast _ _ _⟩
  · intro ev sh1 sh2 w hpc
    exact ⟨matchLine ev.now w.privateKeyHex w.address, (written_step cfg ev sh1 w).1 hpc,
      (written_step cfg ev sh2 w).1 hpc⟩
  · intro ev sh w hpc
    simp [addressSearcherStep, hpc]
  · intro ev sh w hpc
    by_cases hp : w.currentChecked.tmod cfg.interval = 0 <;>
      simp [addressSearcherStep, hpc, hp, progressEffect]

/-- Witness for C6 (amended): the line that the tenth step of a worker that
generates `toyKey` hands to `file.WriteString`, in a run with a second worker. -/
theorem match_line_fields_witness :
    written (run toyConfig (initState 2 [])
        (List.replicate 9 toyEvent ++ [toyEvent])).shared.trace =
      written (run toyConfig (initState 2 []) (List.replicate 9 toyEvent)).shared.trace ++
        ["[".toList ++ toyEvent.now ++ "] FOUND! PrivateKey: ".toList ++
          EncodeToString toyKey ++ " Address: ".toList ++
          derivedAddress toyConfig.prims toyKey ++ "\n".toList] := by
  have hw : (run toyConfig (initState 2 []) (List.replicate 9 toyEvent)).workers[
      toyEvent.worker]? = some ⟨.write, toyKey, derivedAddress toyPrims toyKey, true, 1,
        EncodeToString toyKey⟩ := by decide
  have h := (match_line_fields toyConfig).1 2 [] (List.replicate 9 toyEvent) toyEvent
    ⟨.write, toyKey, derivedAddress toyPrims toyKey, true, 1, EncodeToString toyKey⟩ hw rfl
  simp only at h
  exact h

theorem flatten_getLast (c : Char) (ls : List GoString) (h : ∀ l ∈ ls, l.getLast? = some c)
    (hne : ls ≠ []) : ls.flatten.getLast? = some c := by
  induction ls with
  | nil => exact absurd rfl hne
  | cons a rest ih =>
    have ha : a.getLast? = some c := h a (List.mem_cons_self _ _)
    rw [List.flatten_cons, List.getLast?_append, ha]
    by_cases hr : rest = []
    · subst hr
      rfl
    · rw [ih (fun l hl => h l (List.mem_cons_of_mem _ hl)) hr]
      rfl

theorem whole_addressSearcherStep (cfg : Config) (ev : Event) (hwr : ev.wrote = none)
    (sh : Shared) (w : Worker) (h : stored sh.trace = written sh.trace) :
    stored (addressSearcherStep cfg ev sh w).1.trace =
      written (addressSearcherStep cfg ev sh w).1.trace := by
  obtain ⟨pc, key, address, isFunded, cur, hex⟩ := w
  cases pc
  case generate =>
    cases hg : generateRandomPrivateKey ev.rand <;> simpa [addressSearcherStep, hg] using h
  case progress =>
    by_cases hp : cur.tmod cfg.interval = 0
    · simp only [addressSearcherStep, hp, if_true, stored_append, written_append, h]
      rfl
    · simpa [addressSearcherStep, hp] using h
  case hit => cases isFunded <;> simpa [addressSearcherStep] using h
  case alert =>
    simp only [addressSearcherStep, stored_append, written_append, h]
    rfl
  case lock => cases hm : sh.mutex <;> simpa [addressSearcherStep, hm] using h
  case openFile =>
    cases ho : ev.openOk <;>
      simp only [addressSearcherStep, ho, if_true, if_false, Bool.false_eq_true, stored_append,
        written_append, h] <;> rfl
  case write =>
    simp only [addressSearcherStep, hwr, storedPart, stored_append, written_append, h]
    rfl
  all_goals simpa [addressSearcherStep, privateKeyToAddress_ok] using h

theorem whole_run (cfg : Config) (s : State) (evs : List Event)
    (hev : ∀ ev ∈ evs, ev.wrote = none) (h : stored s.shared.trace = written s.shared.trace) :
    stored (run cfg s evs).shared.trace = written (run cfg s evs).shared.trace := by
  induction evs generalizing s with
  | nil => exact h
  | cons ev rest ih =>
    rw [run_cons]
    apply ih _ (fun e he => hev e (List.mem_cons_of_mem _ he))
    unfold step
    cases hw : s.workers[ev.worker]? with
    | none => exact h
    | some w =>
      exact whole_addressSearcherStep cfg ev (hev ev (List.mem_cons_self _ _)) s.shared w h

/-- C8, as stated, fails when a write is cut short: one worker that finds the
address of `toyKey` on a disk that fills up after 5 bytes.  The file then holds
the torn record `[2006`, which is no concatenation of whole lines. -/
theorem torn_record_in_log :
    (run toyConfig (initState 1 []) (List.replicate 9 toyEvent ++ [tornEvent])).shared.file =
        "[2006".toList ∧
      ¬ ∃ lines : List GoString, (∀ l ∈ lines, l.getLast? = some '\n') ∧
        (run toyConfig (initState 1 [])
          (List.replicate 9 toyEvent ++ [tornEvent])).shared.file = lines.flatten := by
  have hfile : (run toyConfig (initState 1 [])
      (List.replicate 9 toyEvent ++ [tornEvent])).shared.file = "[2006".toList := by decide
  refine ⟨hfile, ?_⟩
  rintro ⟨lines, hl, hf⟩
  rw [hfile] at hf
  by_cases hne : lines = []
  · subst hne
    exact absurd hf (by decide)
  · have h1 := flatten_getLast '\n' lines hl hne
    rw [← hf] at h1
    exact absurd h1 (by decide)

/-- C8, amended.  In every run of any number of workers: at most one worker is
between `mutex.Lock()` and `mutex.Unlock()`; the mutex is locked exactly when
one is there, so it is free whenever the section is empty; both ways out of the
section (the failed `os.OpenFile` and the final `mutex.Unlock()`) release it.
The match log is its initial contents followed by what the `file.WriteString`
calls stored, in the order of the calls; every string handed to such a call is
the whole record of one match, and what the call stored is a prefix of it, the
whole of it when the write succeeds.  In a run in which every write succeeds the
log is the initial contents followed by whole records. -/
theorem recorder_serialized (cfg : Config) (numThreads : Nat) (file0 : GoString)
    (evs : List Event) :
    sectionCount (run cfg (initState numThreads file0) evs).workers ≤ 1 ∧
      ((run cfg (initState numThreads file0) evs).shared.mutex = true ↔
        sectionCount (run cfg (initState numThreads file0) evs).workers = 1) ∧
      ((run cfg (initState numThreads file0) evs).shared.mutex = false ↔
        sectionCount (run cfg (initState numThreads file0) evs).workers = 0) ∧
      (∀ ev sh w, inSection w = 1 → inSection (addressSearcherStep cfg ev sh w).2 = 0 →
        (addressSearcherStep cfg ev sh w).1.mutex = false) ∧
      (∀ ev sh w, w.pc = .openFile → ev.openOk = false →
        inSection (addressSearcherStep cfg ev sh w).2 = 0) ∧
      (run cfg (initState numThreads file0) evs).shared.file =
        file0 ++ (stored (run cfg (initState numThreads file0) evs).shared.trace).flatten ∧
      (∀ l ∈ written (run cfg (initState numThreads file0) evs).shared.trace,
        IsRecord cfg l) ∧
      (∀ p ∈ writes (run cfg (initState numThreads file0) evs).shared.trace, p.2 <+: p.1) ∧
      (∀ (ev : Event) (sh : Shared) (w : Worker), w.pc = .write → ev.wrote = none →
        (addressSearcherStep cfg ev sh w).1.file =
          sh.file ++ matchLine ev.now w.privateKeyHex w.address) ∧
      ((∀ ev ∈ evs, ev.wrote = none) →
        (run cfg (initState numThreads file0) evs).shared.file =
          file0 ++ (written (run cfg (initState numThreads file0) evs).shared.trace).flatten) := by
  obtain ⟨_, hsec, hfile, hrec, hpre⟩ := RecorderInv_run cfg numThreads file0 evs
  refine ⟨?_, ?_, ?_, ?_, ?_, hfile, hrec, hpre, ?_, ?_⟩
  · rw [hsec]
    split <;> omega
  · rw [hsec]
    cases (run cfg (initState numThreads file0) evs).shared.mutex <;> simp
  · rw [hsec]
    cases (run cfg (initState numThreads file0) evs).shared.mutex <;> simp
  · intro ev sh w h1 h2
    obtain ⟨pc, key, address, isFunded, cur, hex⟩ := w
    cases pc <;> simp [inSection] at h1
    case openFile =>
      cases ho : ev.openOk <;> simp [addressSearcherStep, ho, inSection] at h2 ⊢
    case write => simp [addressSearcherStep, inSection] at h2
    case unlock => simp [addressSearcherStep]
  · intro ev sh w h1 h2
    simp [addressSearcherStep, h1, h2, inSection]
  · intro ev sh w hpc hwr
    rw [((file_addressSearcherStep cfg ev sh w).1 hpc).1, hwr]
    rfl
  · intro hev
    rw [hfile, whole_run cfg (initState numThreads file0) evs hev rfl]

/-- Witness for C8 (amended): two workers and a run in which every write
succeeds; the log is the one whole record written. -/
theorem recorder_serialized_witness :
    (run toyConfig (initState 2 []) (List.replicate 12 toyEvent)).shared.file =
        [] ++ (written (run toyConfig (initState 2 [])
          (List.replicate 12 toyEvent)).shared.trace).flatten ∧
      (written (run toyConfig (initState 2 [])
        (List.replicate 12 toyEvent)).shared.trace).length = 1 :=
  ⟨(recorder_serialized toyConfig 2 [] (List.replicate 12 toyEvent)).2.2.2.2.2.2.2.2.2
      (by decide), by decide⟩

end BitcoinFinder
